import Mathlib

/-!
# A shallow embedding of `zip_write.h` (streaming ZIP64 writer)

This file models the compression and archive-emission engine of
`zip_write.h` in Lean 4 and proves properties of the model.

Conventions of the embedding:
* machine integers (`zw_u8/u16/u32/u64`) become `Nat`, with an explicit
  `% 2^w` at every operation where C wrap-around can occur
  (`zw_u32` bit buffers, the 32-bit hash mixing, `zw_u16` cursors);
* byte buffers handed across the API become `List Nat`; the 64 KiB
  window is a total function `Nat → Nat` (index to byte);
* the growable per-slot hash chains (`zw__sb*` stretchy buffers) become
  `List Nat` per slot; allocation always succeeds in the model (the C
  source asserts on allocation failure);
* the output sink (`zw_output_stream`) is modelled by a caller-supplied
  state machine: `write` takes the sink state and the bytes and returns
  the new state, the number of bytes actually written, and the error
  code the sink itself stores into `stream->error` (0 for none);
* a `zw_zip` handle (a possibly-NULL pointer) becomes
  `Option (zw__zip_details σ)`.
-/

set_option maxRecDepth 4000
set_option linter.unusedVariables false

namespace ZipWrite

/-! ## CRC-32 (`zw__crc32`) -/

/-- The 256-entry CRC-32 table from `zw__crc32`. -/
def zw__crc_table : List Nat := [
  0x00000000, 0x77073096, 0xEE0E612C, 0x990951BA, 0x076DC419, 0x706AF48F, 0xE963A535, 0x9E6495A3,
  0x0eDB8832, 0x79DCB8A4, 0xE0D5E91E, 0x97D2D988, 0x09B64C2B, 0x7EB17CBD, 0xE7B82D07, 0x90BF1D91,
  0x1DB71064, 0x6AB020F2, 0xF3B97148, 0x84BE41DE, 0x1ADAD47D, 0x6DDDE4EB, 0xF4D4B551, 0x83D385C7,
  0x136C9856, 0x646BA8C0, 0xFD62F97A, 0x8A65C9EC, 0x14015C4F, 0x63066CD9, 0xFA0F3D63, 0x8D080DF5,
  0x3B6E20C8, 0x4C69105E, 0xD56041E4, 0xA2677172, 0x3C03E4D1, 0x4B04D447, 0xD20D85FD, 0xA50AB56B,
  0x35B5A8FA, 0x42B2986C, 0xDBBBC9D6, 0xACBCF940, 0x32D86CE3, 0x45DF5C75, 0xDCD60DCF, 0xABD13D59,
  0x26D930AC, 0x51DE003A, 0xC8D75180, 0xBFD06116, 0x21B4F4B5, 0x56B3C423, 0xCFBA9599, 0xB8BDA50F,
  0x2802B89E, 0x5F058808, 0xC60CD9B2, 0xB10BE924, 0x2F6F7C87, 0x58684C11, 0xC1611DAB, 0xB6662D3D,
  0x76DC4190, 0x01DB7106, 0x98D220BC, 0xEFD5102A, 0x71B18589, 0x06B6B51F, 0x9FBFE4A5, 0xE8B8D433,
  0x7807C9A2, 0x0F00F934, 0x9609A88E, 0xE10E9818, 0x7F6A0DBB, 0x086D3D2D, 0x91646C97, 0xE6635C01,
  0x6B6B51F4, 0x1C6C6162, 0x856530D8, 0xF262004E, 0x6C0695ED, 0x1B01A57B, 0x8208F4C1, 0xF50FC457,
  0x65B0D9C6, 0x12B7E950, 0x8BBEB8EA, 0xFCB9887C, 0x62DD1DDF, 0x15DA2D49, 0x8CD37CF3, 0xFBD44C65,
  0x4DB26158, 0x3AB551CE, 0xA3BC0074, 0xD4BB30E2, 0x4ADFA541, 0x3DD895D7, 0xA4D1C46D, 0xD3D6F4FB,
  0x4369E96A, 0x346ED9FC, 0xAD678846, 0xDA60B8D0, 0x44042D73, 0x33031DE5, 0xAA0A4C5F, 0xDD0D7CC9,
  0x5005713C, 0x270241AA, 0xBE0B1010, 0xC90C2086, 0x5768B525, 0x206F85B3, 0xB966D409, 0xCE61E49F,
  0x5EDEF90E, 0x29D9C998, 0xB0D09822, 0xC7D7A8B4, 0x59B33D17, 0x2EB40D81, 0xB7BD5C3B, 0xC0BA6CAD,
  0xEDB88320, 0x9ABFB3B6, 0x03B6E20C, 0x74B1D29A, 0xEAD54739, 0x9DD277AF, 0x04DB2615, 0x73DC1683,
  0xE3630B12, 0x94643B84, 0x0D6D6A3E, 0x7A6A5AA8, 0xE40ECF0B, 0x9309FF9D, 0x0A00AE27, 0x7D079EB1,
  0xF00F9344, 0x8708A3D2, 0x1E01F268, 0x6906C2FE, 0xF762575D, 0x806567CB, 0x196C3671, 0x6E6B06E7,
  0xFED41B76, 0x89D32BE0, 0x10DA7A5A, 0x67DD4ACC, 0xF9B9DF6F, 0x8EBEEFF9, 0x17B7BE43, 0x60B08ED5,
  0xD6D6A3E8, 0xA1D1937E, 0x38D8C2C4, 0x4FDFF252, 0xD1BB67F1, 0xA6BC5767, 0x3FB506DD, 0x48B2364B,
  0xD80D2BDA, 0xAF0A1B4C, 0x36034AF6, 0x41047A60, 0xDF60EFC3, 0xA867DF55, 0x316E8EEF, 0x4669BE79,
  0xCB61B38C, 0xBC66831A, 0x256FD2A0, 0x5268E236, 0xCC0C7795, 0xBB0B4703, 0x220216B9, 0x5505262F,
  0xC5BA3BBE, 0xB2BD0B28, 0x2BB45A92, 0x5CB36A04, 0xC2D7FFA7, 0xB5D0CF31, 0x2CD99E8B, 0x5BDEAE1D,
  0x9B64C2B0, 0xEC63F226, 0x756AA39C, 0x026D930A, 0x9C0906A9, 0xEB0E363F, 0x72076785, 0x05005713,
  0x95BF4A82, 0xE2B87A14, 0x7BB12BAE, 0x0CB61B38, 0x92D28E9B, 0xE5D5BE0D, 0x7CDCEFB7, 0x0BDBDF21,
  0x86D3D2D4, 0xF1D4E242, 0x68DDB3F8, 0x1FDA836E, 0x81BE16CD, 0xF6B9265B, 0x6FB077E1, 0x18B74777,
  0x88085AE6, 0xFF0F6A70, 0x66063BCA, 0x11010B5C, 0x8F659EFF, 0xF862AE69, 0x616BFFD3, 0x166CCF45,
  0xA00AE278, 0xD70DD2EE, 0x4E048354, 0x3903B3C2, 0xA7672661, 0xD06016F7, 0x4969474D, 0x3E6E77DB,
  0xAED16A4A, 0xD9D65ADC, 0x40DF0B66, 0x37D83BF0, 0xA9BCAE53, 0xDEBB9EC5, 0x47B2CF7F, 0x30B5FFE9,
  0xBDBDF21C, 0xCABAC28A, 0x53B39330, 0x24B4A3A6, 0xBAD03605, 0xCDD70693, 0x54DE5729, 0x23D967BF,
  0xB3667A2E, 0xC4614AB8, 0x5D681B02, 0x2A6F2B94, 0xB40BBE37, 0xC30C8EA1, 0x5A05DF1B, 0x2D02EF8D]

/-- One iteration of the CRC loop:
`crc = (crc >> 8) ^ crc_table[buffer[i] ^ (crc & 0xff)]`. -/
def zw__crc32_step (crc b : Nat) : Nat :=
  (crc >>> 8) ^^^ (zw__crc_table.getD ((b ^^^ (crc &&& 255)) % 256) 0)

/-- `zw__crc32(buffer, len, initial)`: table-driven IEEE CRC-32, with the
running value inverted on entry and exit.  (The `% 256` in the table index
is redundant for byte inputs, as in the C source where `buffer[i]` is a
`zw_u8`; it keeps the lookup total for arbitrary `Nat` entries.) -/
def zw__crc32 (buffer : List Nat) (initial : Nat) : Nat :=
  (buffer.foldl zw__crc32_step (initial ^^^ 4294967295)) ^^^ 4294967295

/-! ## MS-DOS time/date (`zw__zip_encode_time`, `zw__zip_encode_date`) -/

/-- `zw__zip_encode_time`.  Note the source's clamping slip is preserved:
`if (minute > 59) hour = 59;` assigns `hour`, not `minute`. -/
def zw__zip_encode_time (hour minute second : Nat) : Nat :=
  let hour := if hour > 23 then 23 else hour
  let hour := if minute > 59 then 59 else hour
  let second := if second > 59 then 59 else second
  ((second >>> 1) ||| (minute <<< 5) ||| (hour <<< 11)) % 65536

/-- `zw__zip_encode_date`. -/
def zw__zip_encode_date (year month day : Nat) : Nat :=
  let year := if year ≥ 1980 then year - 1980 else 0
  let year := if year > 127 then 127 else year
  let month := if month > 12 then 12 else month
  let day := if day > 31 then 31 else day
  (day ||| (month <<< 5) ||| (year <<< 9)) % 65536

/-! ## Longest-match counter (`zw__zlib_countm`) and its SSE fast path

The byte sequences `a` and `b` are total functions from index to byte.
`zw__movemask` models `_mm_movemask_epi8(_mm_cmpeq_epi8(va, vb))` applied
to `n` consecutive byte lanes starting at `base`: lane `k` contributes
bit `k`, set exactly when `a[base+k] == b[base+k]`.  `zw__bsf` models
`_BitScanForward`/`__builtin_ctz` (callers only use it on nonzero masks,
matching the C contract). -/

def zw__bsf (m : Nat) : Nat :=
  if h : m = 0 then 0
  else if m % 2 = 1 then 0
  else 1 + zw__bsf (m / 2)
decreasing_by exact Nat.div_lt_self (Nat.pos_of_ne_zero h) (by omega)

def zw__movemask (a b : Nat → Nat) (base : Nat) : Nat → Nat
  | 0 => 0
  | n + 1 => (if a base = b base then 1 else 0) + 2 * zw__movemask a b (base + 1) n

/-- The scalar tail loop of `zw__zlib_countm`
(`for (; i < limit; ++i) if (a[i] != b[i]) break; return i;`).
With starting index 0, this is also the whole `ZW_NO_SSE` loop body. -/
def zw__countm_tail (a b : Nat → Nat) (limit i : Nat) : Nat :=
  if h : i < limit then
    if a i ≠ b i then i else zw__countm_tail a b limit (i + 1)
  else i
termination_by limit - i
decreasing_by omega

/-- The 16-byte SSE step of `zw__zlib_countm`. -/
def zw__countm_block16 (a b : Nat → Nat) (limit i : Nat) : Nat :=
  if i + 16 ≤ limit then
    let mask := zw__movemask a b i 16 ^^^ 65535
    if mask ≠ 0 then i + zw__bsf mask
    else zw__countm_tail a b limit (i + 16)
  else zw__countm_tail a b limit i

/-- The 32-byte SSE loop of `zw__zlib_countm`; falls through to the
16-byte step and then the scalar tail. -/
def zw__countm_loop32 (a b : Nat → Nat) (limit i : Nat) : Nat :=
  if h : i + 32 ≤ limit then
    let mask := ((zw__movemask a b i 16) ||| ((zw__movemask a b (i + 16) 16) <<< 16)) ^^^ 4294967295
    if mask ≠ 0 then i + zw__bsf mask
    else zw__countm_loop32 a b limit (i + 32)
  else zw__countm_block16 a b limit i
termination_by limit - i
decreasing_by omega

/-- `zw__zlib_countm(a, b, limit)` (SSE build). -/
def zw__zlib_countm (a b : Nat → Nat) (limit : Nat) : Nat :=
  let limit := if limit > 258 then 258 else limit
  zw__countm_loop32 a b limit 0

/-- `r` is the length of the longest common byte run of `a` and `b`
capped at `m`:  `r ≤ m`, all bytes before `r` agree, and if the cap was
not hit the bytes at `r` differ. -/
def zw__lcp_spec (a b : Nat → Nat) (m r : Nat) : Prop :=
  r ≤ m ∧ (∀ k < r, a k = b k) ∧ (r < m → a r ≠ b r)

/-! ## Hash and match search (`zw__zhash`, main loop of `zw__flush_input`) -/

def zw__hash_size : Nat := 16384

/-- `zw__zhash` over the three bytes `b0, b1, b2`; all intermediate
values are 32-bit (`zw_u32`), hence the `% 2^32`. -/
def zw__zhash (b0 b1 b2 : Nat) : Nat :=
  let hash := (b0 + (b1 <<< 8) + (b2 <<< 16)) % 4294967296
  let hash := (hash ^^^ (hash <<< 3)) % 4294967296
  let hash := (hash + (hash >>> 5)) % 4294967296
  let hash := (hash ^^^ (hash <<< 4)) % 4294967296
  let hash := (hash + (hash >>> 17)) % 4294967296
  let hash := (hash ^^^ (hash <<< 25)) % 4294967296
  let hash := (hash + (hash >>> 6)) % 4294967296
  hash

/-- `zw__zhash(data + i) & (zw__hash_size - 1)` where `data` is the upper
window half (`window + 32768`). -/
def zw__hash_at (w : Nat → Nat) (i : Nat) : Nat :=
  zw__zhash (w (32768 + i)) (w (32768 + i + 1)) (w (32768 + i + 2)) &&& (zw__hash_size - 1)

/-- The candidate scan over one hash slot (first `for (j = 0; j < n; ++j)`
loop of `zw__flush_input`): walks the offsets in order, considers entries
with `hlist[j] > i`, and updates `(best, bestloc)` whenever the match
length `d` satisfies `d >= best` (so a later candidate wins ties).
Called with `best = 3`, `bestloc = none`. -/
def zw__match_best (w : Nat → Nat) (i dl best : Nat) (bestloc : Option Nat) :
    List Nat → Nat × Option Nat
  | [] => (best, bestloc)
  | ofs :: rest =>
    if ofs > i then
      let d := zw__zlib_countm (fun k => w (ofs + k)) (fun k => w (32768 + i + k)) (dl - i)
      if d ≥ best then zw__match_best w i dl d (some ofs) rest
      else zw__match_best w i dl best bestloc rest
    else zw__match_best w i dl best bestloc rest

/-- Slot maintenance before pushing the new offset: when the chain has
grown to `2 * quality` entries the older half is dropped (the `ZW_MEMMOVE`
keeps entries `quality .. 2*quality`), then `i + 32768` is appended
(`zw__sbpush`). -/
def zw__slot_update (quality : Nat) (slot : List Nat) (newofs : Nat) : List Nat :=
  let slot := if slot.length = 2 * quality then slot.drop quality else slot
  slot ++ [newofs]

/-- The lazy-match scan (second `for (j = 0; j < n; ++j)` loop): walks the
slot of the hash at `i + 1` and reports whether any candidate beyond
`i + 1` matches strictly longer than `best` (which aborts the current
match: `bestloc = NULL; break;`). -/
def zw__lazy_bail (w : Nat → Nat) (i dl best : Nat) : List Nat → Bool
  | [] => false
  | ofs :: rest =>
    if ofs > i + 1 then
      let e := zw__zlib_countm (fun k => w (ofs + k)) (fun k => w (32768 + i + 1 + k)) (dl - i - 1)
      if e > best then true else zw__lazy_bail w i dl best rest
    else zw__lazy_bail w i dl best rest

/-- What one iteration of the match loop decided to emit. -/
inductive zw__decision where
  | lit : zw__decision
  | emit_match (best loc : Nat) : zw__decision
deriving DecidableEq

/-- The per-position decision logic of the main loop of `zw__flush_input`:
hash the 3 bytes at `i`, scan the slot for the best candidate, trim and
push `i + 32768` into that slot, then (if a match was found) run the
lazy-match scan on the slot of the hash at `i + 1` — which is read
*after* the push, as in the source — and decide between emitting
`data[i]` as a literal and emitting the match.  Returns the decision and
the updated hash table. -/
def zw__search_decide (quality : Nat) (w : Nat → Nat) (dl : Nat)
    (ht : Nat → List Nat) (i : Nat) : zw__decision × (Nat → List Nat) :=
  let h := zw__hash_at w i
  let bb := zw__match_best w i dl 3 none (ht h)
  let slot := zw__slot_update quality (ht h) (i + 32768)
  let ht2 := fun s => if s = h then slot else ht s
  match bb.2 with
  | none => (zw__decision.lit, ht2)
  | some loc =>
    if zw__lazy_bail w i dl bb.1 (ht2 (zw__hash_at w (i + 1))) then (zw__decision.lit, ht2)
    else (zw__decision.emit_match bb.1 loc, ht2)

/-- The window-slide rewrite of one hash slot (last loop of
`zw__flush_input`): keep offsets `>= cursor`, rewritten as
`ofs - cursor`, in order; drop the rest. -/
def zw__slide_slot (cursor : Nat) : List Nat → List Nat
  | [] => []
  | ofs :: rest =>
    if ofs ≥ cursor then (ofs - cursor) :: zw__slide_slot cursor rest
    else zw__slide_slot cursor rest

/-! ## Session state (`zw__zip_details`) and the output stream -/

/-- `zw_output_stream`, with the sink's behaviour modelled as a state
machine over a caller-chosen state type `σ`: `write st bytes` returns the
new sink state, the number of bytes actually written, and the error code
the sink stores into `stream->error` (0 when it sets none).  `has_close`
records whether the `close` capability is non-NULL. -/
structure zw_output_stream (σ : Type) where
  state : σ
  write : σ → List Nat → σ × Nat × Nat
  has_close : Bool
  error : Nat

/-- `struct zw__zip_details`.  The `out`/`window` capacities
(`out_total = 32768`, `in_total = 32768`) are the constants set by
`zw_create_ex` and appear as literals; `outbuf` is `out[0 .. out_cursor)`;
`window` is the 64 KiB byte array; `cf_*` are the `current_file` fields
(the name is stored as its byte list, standing for the inline/growable
name buffer). -/
structure zw__zip_details (σ : Type) where
  bitbuf : Nat
  bitcount : Nat
  quality : Nat
  outbuf : List Nat
  window : Nat → Nat
  in_cursor : Nat
  hash_table : Nat → List Nat
  stream : zw_output_stream σ
  offset : Nat
  cf_start_offset : Nat
  cf_compressed_size : Nat
  cf_uncompressed_size : Nat
  cf_crc : Nat
  cf_name_length : Nat
  cf_name : List Nat
  time : Nat
  date : Nat
  central_dir : List Nat
  num_files : Nat

/-- A `zw_zip` handle: a possibly-NULL pointer to the session. -/
def zw_zip (σ : Type) : Type := Option (zw__zip_details σ)

/-- `zw__write_to_stream`: short-circuits on size 0 and on a latched
error; otherwise calls the sink, advances `offset` by the bytes actually
written, stores the sink's error code, and on a short write latches the
default error code 1 if the sink set none. -/
def zw__write_to_stream {σ : Type} (s : zw__zip_details σ) (data : List Nat) :
    zw__zip_details σ × Bool :=
  if data.length = 0 then (s, true)
  else if s.stream.error ≠ 0 then (s, false)
  else
    let r := s.stream.write s.stream.state data
    let s1 := { s with stream := { s.stream with state := r.1, error := r.2.2 },
                       offset := s.offset + r.2.1 }
    if r.2.1 = data.length then (s1, true)
    else if s1.stream.error = 0 then
      ({ s1 with stream := { s1.stream with error := 1 } }, false)
    else (s1, false)

/-- `zw__flush_compressed_bytes`. -/
def zw__flush_compressed_bytes {σ : Type} (s : zw__zip_details σ) : zw__zip_details σ :=
  if 0 < s.outbuf.length then
    let s1 := { s with cf_compressed_size := s.cf_compressed_size + s.outbuf.length }
    let w := zw__write_to_stream s1 s1.outbuf
    { w.1 with outbuf := [] }
  else s

theorem zw__write_to_stream_bitcount {σ : Type} (s : zw__zip_details σ) (d : List Nat) :
    ((zw__write_to_stream s d).1).bitcount = s.bitcount := by
  unfold zw__write_to_stream
  split
  · rfl
  · split
    · rfl
    · dsimp only
      split
      · rfl
      · split <;> rfl

theorem zw__flush_compressed_bitcount {σ : Type} (s : zw__zip_details σ) :
    (zw__flush_compressed_bytes s).bitcount = s.bitcount := by
  unfold zw__flush_compressed_bytes
  split
  · simp only [zw__write_to_stream_bitcount]
  · rfl

/-- `zw__flush_bits`: drain whole bytes from the bit accumulator into the
output buffer, flushing the buffer to the sink when it fills. -/
def zw__flush_bits {σ : Type} (s : zw__zip_details σ) : zw__zip_details σ :=
  if h : s.bitcount ≥ 8 then
    let s1 := { s with outbuf := s.outbuf ++ [s.bitbuf % 256] }
    let s2 := if s1.outbuf.length = 32768 then zw__flush_compressed_bytes s1 else s1
    zw__flush_bits { s2 with bitbuf := s2.bitbuf / 256, bitcount := s2.bitcount - 8 }
  else s
termination_by s.bitcount
decreasing_by
  split
  · rw [zw__flush_compressed_bitcount]; dsimp only; omega
  · dsimp only; omega

theorem zw__flush_bits_bitcount {σ : Type} (s : zw__zip_details σ) :
    (zw__flush_bits s).bitcount = s.bitcount % 8 := by
  generalize hn : s.bitcount = n
  induction n using Nat.strong_induction_on generalizing s with
  | _ n ih =>
    rw [zw__flush_bits.eq_def]
    split
    · rename_i h
      have harg : (let s1 : zw__zip_details σ := { s with outbuf := s.outbuf ++ [s.bitbuf % 256] };
          let s2 := if s1.outbuf.length = 32768 then zw__flush_compressed_bytes s1 else s1;
          ({ s2 with bitbuf := s2.bitbuf / 256, bitcount := s2.bitcount - 8 } :
            zw__zip_details σ)).bitcount = n - 8 := by
        dsimp only
        split
        · rw [zw__flush_compressed_bitcount]; dsimp only; omega
        · dsimp only; omega
      rw [ih (n - 8) (by omega) _ harg]
      omega
    · omega

/-- `zw__zlib_bitrev` (`res = (res << 1) | (code & 1); code >>= 1;`). -/
def zw__zlib_bitrev_aux (res code : Nat) : Nat → Nat
  | 0 => res
  | n + 1 => zw__zlib_bitrev_aux ((res <<< 1) ||| (code &&& 1)) (code >>> 1) n

def zw__zlib_bitrev (code codebits : Nat) : Nat :=
  zw__zlib_bitrev_aux 0 code codebits

/-- `zw__zlib_add(code, codebits)`: or the code into the 32-bit
accumulator at the current bit position, bump the bit count, flush. -/
def zw__zlib_add {σ : Type} (s : zw__zip_details σ) (code codebits : Nat) : zw__zip_details σ :=
  zw__flush_bits { s with bitbuf := (s.bitbuf ||| (code <<< s.bitcount)) % 4294967296,
                          bitcount := s.bitcount + codebits }

theorem zw__zlib_add_bitcount {σ : Type} (s : zw__zip_details σ) (code codebits : Nat) :
    (zw__zlib_add s code codebits).bitcount = (s.bitcount + codebits) % 8 := by
  unfold zw__zlib_add
  rw [zw__flush_bits_bitcount]

/-- `zw__zlib_huffa(b, c)`. -/
def zw__zlib_huffa {σ : Type} (s : zw__zip_details σ) (b c : Nat) : zw__zip_details σ :=
  zw__zlib_add s (zw__zlib_bitrev b c) c

/-- `zw__zlib_huff(n)`: fixed literal/length Huffman emission. -/
def zw__zlib_huff {σ : Type} (s : zw__zip_details σ) (n : Nat) : zw__zip_details σ :=
  if n ≤ 143 then zw__zlib_huffa s (0x30 + n) 8
  else if n ≤ 255 then zw__zlib_huffa s (0x190 + n - 144) 9
  else if n ≤ 279 then zw__zlib_huffa s (0 + n - 256) 7
  else zw__zlib_huffa s (0xc0 + n - 280) 8

/-- `zw__zlib_huffb(n)`: literal-only variant. -/
def zw__zlib_huffb {σ : Type} (s : zw__zip_details σ) (n : Nat) : zw__zip_details σ :=
  if n ≤ 143 then zw__zlib_huffa s (0x30 + n) 8
  else zw__zlib_huffa s (0x190 + n - 144) 9

/-- Measure for the byte-boundary padding loop: number of `add(0, 1)`
steps left until the bit count returns to 0. -/
def zw__pad_measure (c : Nat) : Nat :=
  if c = 0 then 0 else 8 - c % 8

/-- The padding loop of `zw__zip_end_file`
(`while (archive->bitcount) zw__zlib_add(0, 1);`). -/
def zw__pad_bits {σ : Type} (s : zw__zip_details σ) : zw__zip_details σ :=
  if h : s.bitcount = 0 then s
  else zw__pad_bits (zw__zlib_add s 0 1)
termination_by zw__pad_measure s.bitcount
decreasing_by
  rw [zw__zlib_add_bitcount]
  unfold zw__pad_measure
  split <;> omega

/-! ## The DEFLATE encoder main loop (`zw__flush_input`) -/

/-- `lengthc` (length code base table, with the 259 sentinel). -/
def zw__lengthc : List Nat :=
  [3, 4, 5, 6, 7, 8, 9, 10, 11, 13, 15, 17, 19, 23]
    ++ [27, 31, 35, 43, 51, 59, 67, 83, 99, 115, 131, 163, 195, 227, 258, 259]

/-- `lengtheb` (length extra-bit counts). -/
def zw__lengtheb : List Nat :=
  [0, 0, 0, 0, 0, 0, 0, 0, 1, 1, 1, 1, 2, 2]
    ++ [2, 2, 3, 3, 3, 3, 4, 4, 4, 4, 5, 5, 5, 5, 0]

/-- `distc` (distance code base table, with the 32768 sentinel). -/
def zw__distc : List Nat :=
  [1, 2, 3, 4, 5, 7, 9, 13, 17, 25, 33, 49, 65, 97]
    ++ [129, 193, 257, 385, 513, 769, 1025, 1537, 2049, 3073,
        4097, 6145, 8193, 12289, 16385, 24577, 32768]

/-- `disteb` (distance extra-bit counts). -/
def zw__disteb : List Nat :=
  [0, 0, 0, 0, 1, 1, 2, 2, 3, 3, 4, 4, 5, 5, 6, 6]
    ++ [7, 7, 8, 8, 9, 9, 10, 10, 11, 11, 12, 12, 13, 13]

/-- The index searches `for (j = 0; v > table[j+1] - 1; ++j);`:
count how many steps the cursor advances over the base table. -/
def zw__code_index (v : Nat) : List Nat → Nat
  | _ :: x1 :: rest => if v > x1 - 1 then zw__code_index v (x1 :: rest) + 1 else 0
  | _ => 0

theorem zw__match_best_fst_ge (w : Nat → Nat) (i dl : Nat) :
    ∀ (l : List Nat) (best : Nat) (bestloc : Option Nat),
      best ≤ (zw__match_best w i dl best bestloc l).1 := by
  intro l
  induction l with
  | nil => intro best bestloc; simp [zw__match_best]
  | cons ofs rest ih =>
    intro best bestloc
    unfold zw__match_best
    split
    · dsimp only
      split
      · rename_i hd
        exact le_trans hd (ih _ _)
      · exact ih _ _
    · exact ih _ _

theorem zw__search_decide_emit_ge (quality : Nat) (w : Nat → Nat) (dl : Nat)
    (ht : Nat → List Nat) (i best loc : Nat)
    (h : (zw__search_decide quality w dl ht i).1 = zw__decision.emit_match best loc) :
    3 ≤ best := by
  unfold zw__search_decide at h
  dsimp only at h
  repeat' split at h
  all_goals dsimp only at h
  all_goals
    first
      | exact zw__decision.noConfusion h
      | (injection h with h1 h2
         rw [← h1]
         exact zw__match_best_fst_ge w i dl _ 3 none)

/-- The main `while (i < data_len - 3)` loop of `zw__flush_input`
(`data_len` is promoted to `int` in C, so the guard is `i + 3 < dl`).
The decision logic is `zw__search_decide`; a literal emits
`zw__zlib_huffb(data[i])` and advances by 1, a match emits the
length/extra/distance/extra codes and advances by `best`.  Returns the
updated session and the final loop index. -/
def zw__flush_loop {σ : Type} (dl : Nat) (s : zw__zip_details σ) (i : Nat) :
    zw__zip_details σ × Nat :=
  if hguard : i + 3 < dl then
    let dec := zw__search_decide s.quality s.window dl s.hash_table i
    let s := { s with hash_table := dec.2 }
    match hdec : dec.1 with
    | zw__decision.lit => zw__flush_loop dl (zw__zlib_huffb s (s.window (32768 + i))) (i + 1)
    | zw__decision.emit_match best loc =>
      let d := 32768 + i - loc
      let j := zw__code_index best zw__lengthc
      let s := zw__zlib_huff s (j + 257)
      let s := if zw__lengtheb.getD j 0 ≠ 0 then
          zw__zlib_add s (best - zw__lengthc.getD j 0) (zw__lengtheb.getD j 0) else s
      let j2 := zw__code_index d zw__distc
      let s := zw__zlib_add s (zw__zlib_bitrev j2 5) 5
      let s := if zw__disteb.getD j2 0 ≠ 0 then
          zw__zlib_add s (d - zw__distc.getD j2 0) (zw__disteb.getD j2 0) else s
      zw__flush_loop dl s (i + best)
  else (s, i)
termination_by dl - i
decreasing_by
  · omega
  · have h3 : 3 ≤ best := zw__search_decide_emit_ge _ _ _ _ _ _ _ (by exact hdec)
    omega

/-- The trailing-literal loop (`for (; i < data_len; ++i)`). -/
def zw__emit_tail {σ : Type} (dl : Nat) (s : zw__zip_details σ) (i : Nat) : zw__zip_details σ :=
  if h : i < dl then zw__emit_tail dl (zw__zlib_huffb s (s.window (32768 + i))) (i + 1)
  else s
termination_by dl - i
decreasing_by omega

/-- `zw__flush_input`: compress the pending `in_cursor` input bytes that
sit in the upper window half, slide the hash table and the window,
account the uncompressed size and the CRC, and reset the input cursor. -/
def zw__flush_input {σ : Type} (s : zw__zip_details σ) : zw__zip_details σ :=
  if s.in_cursor = 0 then s
  else
    let dl := s.in_cursor
    let r := zw__flush_loop dl s 0
    let s1 := zw__emit_tail dl r.1 r.2
    let s2 := { s1 with
      hash_table := fun h => zw__slide_slot dl (s1.hash_table h),
      window := fun k => if k < 32768 then s1.window (k + dl) else s1.window k }
    { s2 with
      cf_uncompressed_size := s2.cf_uncompressed_size + dl,
      cf_crc := zw__crc32 ((List.range dl).map (fun k => s2.window (32768 + k))) s2.cf_crc,
      in_cursor := 0 }

theorem zw__flush_input_in_cursor {σ : Type} (s : zw__zip_details σ) :
    (zw__flush_input s).in_cursor = 0 := by
  unfold zw__flush_input
  split
  · rename_i h; exact h
  · rfl

/-! ## ZIP record serialization (packed little-endian layouts) -/

/-- Little-endian 16-bit field. -/
def zw__le16 (v : Nat) : List Nat := [v % 256, v / 256 % 256]

/-- Little-endian 32-bit field. -/
def zw__le32 (v : Nat) : List Nat :=
  [v % 256, v / 256 % 256, v / 65536 % 256, v / 16777216 % 256]

/-- Little-endian 64-bit field. -/
def zw__le64 (v : Nat) : List Nat := zw__le32 (v % 4294967296) ++ zw__le32 (v / 4294967296)

/-- `zw__zip_local_file_header` as written by `zw_begin_file`:
signature, version 45, flag bit 3, method 8 (deflate), session
time/date, zero CRC/sizes, the name length, zero extra length. -/
def zw__zip_local_file_header_bytes (time date name_len : Nat) : List Nat :=
  zw__le32 0x04034b50 ++ zw__le16 45 ++ zw__le16 8 ++ zw__le16 8 ++
  zw__le16 time ++ zw__le16 date ++ zw__le32 0 ++ zw__le32 0 ++ zw__le32 0 ++
  zw__le16 name_len ++ zw__le16 0

/-- `zw__zip_data_descriptor` (12 bytes, no signature): CRC, then the
compressed-size field, then the uncompressed-size field. -/
def zw__zip_data_descriptor_bytes (crc compressed_size uncompressed_size : Nat) : List Nat :=
  zw__le32 crc ++ zw__le32 compressed_size ++ zw__le32 uncompressed_size

/-- `zw__zip_central_dir_file_header` as filled by `zw__zip_end_file`:
sentinel `0xFFFFFFFF` 32-bit sizes and local-header offset, extra-field
length 28. -/
def zw__zip_central_dir_file_header_bytes (time date crc name_len : Nat) : List Nat :=
  zw__le32 0x02014b50 ++ [45] ++ [0] ++ zw__le16 45 ++ zw__le16 8 ++ zw__le16 8 ++
  zw__le16 time ++ zw__le16 date ++ zw__le32 crc ++ zw__le32 4294967295 ++ zw__le32 4294967295 ++
  zw__le16 name_len ++ zw__le16 28 ++ zw__le16 0 ++ zw__le16 0 ++ zw__le16 0 ++
  zw__le32 0 ++ zw__le32 4294967295

/-- `zw__zip_info64` (the ZIP64 extra record, 28 bytes): id 0x0001,
payload length 24, then uncompressed size, compressed size, and
local-header relative offset as 64-bit fields. -/
def zw__zip_info64_bytes (uncompressed_size compressed_size local_header_offset : Nat) :
    List Nat :=
  zw__le16 1 ++ zw__le16 24 ++ zw__le64 uncompressed_size ++ zw__le64 compressed_size ++
  zw__le64 local_header_offset

/-- `zw__zip_end_of_central_dir_64` (56 bytes). -/
def zw__zip_eocd64_bytes (num_files central_dir_size central_dir_offset : Nat) : List Nat :=
  zw__le32 0x06064b50 ++ zw__le64 44 ++ zw__le16 45 ++ zw__le16 45 ++ zw__le32 0 ++ zw__le32 0 ++
  zw__le64 num_files ++ zw__le64 num_files ++ zw__le64 central_dir_size ++
  zw__le64 central_dir_offset

/-- `zw__zip_end_of_central_dir_locator_64` (20 bytes). -/
def zw__zip_eocdloc64_bytes (eocd64_offset : Nat) : List Nat :=
  zw__le32 0x07064b50 ++ zw__le32 0 ++ zw__le64 eocd64_offset ++ zw__le32 1

/-- `zw__zip_end_of_central_dir` (22 bytes) as written by `zw_finish`:
`memset` to `0xff`, then the signature and a zero comment length. -/
def zw__zip_eocd_bytes : List Nat :=
  zw__le32 0x06054b50 ++ List.replicate 16 255 ++ zw__le16 0

/-! ## Archive framing (`zw__zip_end_file`, `zw_begin_file`, `zw_write`,
`zw_create_ex`, `zw_finish`) -/

/-- `zw__append_to_central_dir`: the stretchy central-directory buffer
always grows in the model (the C source asserts on allocation failure),
so this always reports success, like the source. -/
def zw__append_to_central_dir {σ : Type} (s : zw__zip_details σ) (data : List Nat) :
    zw__zip_details σ × Bool :=
  ({ s with central_dir := s.central_dir ++ data }, true)

/-- `zw__zip_end_file` (called with a non-NULL archive; the NULL guard
lives in the public entry points): close the active member if any —
flush residual input, emit the end-of-block symbol 256, pad to a byte
boundary, flush the output buffer, write the data descriptor, append the
central-directory header + name + ZIP64 extra, and clear the active-name
length. -/
def zw__zip_end_file {σ : Type} (s : zw__zip_details σ) : zw__zip_details σ × Bool :=
  if s.cf_name_length = 0 then (s, false)
  else
    let s := zw__flush_input s
    let s := zw__zlib_huff s 256
    let s := zw__pad_bits s
    let s := zw__flush_compressed_bytes s
    let wdesc := zw__write_to_stream s
      (zw__zip_data_descriptor_bytes s.cf_crc 4294967295 4294967295)
    if !wdesc.2 then (wdesc.1, false)
    else
      let s := wdesc.1
      let a1 := zw__append_to_central_dir s
        (zw__zip_central_dir_file_header_bytes s.time s.date s.cf_crc s.cf_name_length)
      if !a1.2 then (a1.1, false)
      else
        let s := a1.1
        let a2 := zw__append_to_central_dir s (s.cf_name.take s.cf_name_length)
        if !a2.2 then (a2.1, false)
        else
          let s := a2.1
          let a3 := zw__append_to_central_dir s
            (zw__zip_info64_bytes s.cf_uncompressed_size s.cf_compressed_size s.cf_start_offset)
          if !a3.2 then (a3.1, false)
          else ({ a3.1 with cf_name_length := 0 }, true)

/-- The body of `zw_begin_file` on a non-NULL archive.  The name storage
(inline 64-byte buffer vs. growable buffer, lines 875–891 of the source)
is modelled by simply keeping the stored name bytes. -/
def zw__begin_file_impl {σ : Type} (a0 : zw__zip_details σ) (path : List Nat) :
    zw__zip_details σ × Bool :=
  let a := (zw__zip_end_file a0).1
  if path = [] then (a, false)
  else
    let name_length := if path.length > 0xfffe then 0xfffe else path.length
    let offset := a.offset
    let w1 := zw__write_to_stream a
      (zw__zip_local_file_header_bytes a.time a.date name_length)
    if !w1.2 then (w1.1, false)
    else
      let w2 := zw__write_to_stream w1.1 (path.take name_length)
      if !w2.2 then (w2.1, false)
      else
        let a : zw__zip_details σ := { w2.1 with cf_name := path.take name_length }
        let a : zw__zip_details σ :=
          if a.num_files ≠ 0 then { a with hash_table := fun _ => [] } else a
        let a := { a with
          in_cursor := 0, outbuf := [],
          cf_name_length := name_length,
          cf_compressed_size := 0, cf_uncompressed_size := 0, cf_crc := 0,
          cf_start_offset := offset,
          num_files := a.num_files + 1 }
        let a := zw__zlib_add a 1 1
        let a := zw__zlib_add a 1 2
        (a, true)

/-- `zw_begin_file`. -/
def zw_begin_file {σ : Type} (archive : zw_zip σ) (path : List Nat) : zw_zip σ × Bool :=
  match archive with
  | none => (none, false)
  | some a =>
    let r := zw__begin_file_impl a path
    (some r.1, r.2)

/-- The `while (data_len > 0)` loop of `zw_write`: copy a batch into the
upper window half, flush when the input half fills.  `avail` is computed
in `zw_u16` arithmetic as in the source (`in_total - in_cursor`
truncated to 16 bits), and `in_cursor` is a `zw_u16`. -/
def zw_write_loop {σ : Type} (s : zw__zip_details σ) (data : List Nat) : zw__zip_details σ :=
  if hdata : data.length = 0 then s
  else
    let avail := (32768 + 65536 - s.in_cursor % 65536) % 65536
    let batch := if data.length < avail then data.length else avail
    let pos := 32768 + s.in_cursor
    let s1 := { s with
      window := fun k => if pos ≤ k ∧ k < pos + batch then data.getD (k - pos) 0 else s.window k,
      in_cursor := (s.in_cursor + batch) % 65536 }
    let s2 := if s1.in_cursor = 32768 then zw__flush_input s1 else s1
    zw_write_loop s2 (data.drop batch)
termination_by 2 * data.length + (if s.in_cursor % 65536 = 32768 then 1 else 0)
decreasing_by
  simp only [List.length_drop]
  repeat' split
  all_goals try simp only [zw__flush_input_in_cursor] at *
  all_goals omega

/-- `zw_write`. -/
def zw_write {σ : Type} (archive : zw_zip σ) (data : List Nat) : zw_zip σ × Bool :=
  match archive with
  | none => (none, false)
  | some a =>
    if a.num_files = 0 then (some a, false)
    else (some (zw_write_loop a data), true)

/-- `zw_create_ex` with a caller-supplied sink; the wall-clock sample
that `zw_create_ex` takes via `time`/`localtime` is passed in as the
already-adjusted year/month/day/hour/minute/second values
(`tm_year + 1900`, `tm_mon + 1`, `tm_mday`, …).  All buffers start
zeroed, `quality = 8`. -/
def zw_create_ex {σ : Type} (stream : zw_output_stream σ)
    (year month day hour minute second : Nat) : zw__zip_details σ where
  bitbuf := 0
  bitcount := 0
  quality := 8
  outbuf := []
  window := fun _ => 0
  in_cursor := 0
  hash_table := fun _ => []
  stream := stream
  offset := 0
  cf_start_offset := 0
  cf_compressed_size := 0
  cf_uncompressed_size := 0
  cf_crc := 0
  cf_name_length := 0
  cf_name := []
  time := zw__zip_encode_time hour minute second
  date := zw__zip_encode_date year month day
  central_dir := []
  num_files := 0

/-- What `zw_finish` did: its boolean result, how many times it invoked
the sink's `close`, whether it reached the `ZW_FREE(archive)` line, and
the session state at exit (for observation; `none` when the handle was
NULL). -/
structure zw__finish_trace (σ : Type) where
  result : Bool
  closed : Nat
  freed : Bool
  final : Option (zw__zip_details σ)

/-- The tail of `zw_finish` after the EOCD record: invoke `close` if the
sink has one, downgrade the result if an error is latched, free the
session. -/
def zw__finish_close {σ : Type} (a : zw__zip_details σ) (result : Bool) : zw__finish_trace σ :=
  let closed := if a.stream.has_close then 1 else 0
  let result := if a.stream.error ≠ 0 then false else result
  { result := result, closed := closed, freed := true, final := some a }

/-- `zw_finish`.  Mirrors the source control flow exactly: the
central-directory and ZIP64-EOCD writes are attempted only while
`result` still holds (`if (result && !write(...)) result = false`), the
ZIP64 locator write is attempted unconditionally, and a failing EOCD
write hits the early `return zw_false;` — skipping both the `close`
invocation and the free. -/
def zw_finish {σ : Type} (archive : zw_zip σ) : zw__finish_trace σ :=
  match archive with
  | none => { result := false, closed := 0, freed := false, final := none }
  | some a0 =>
    let a := (zw__zip_end_file a0).1
    let a := { a with hash_table := fun _ => [], cf_name := [] }
    let offset := a.offset
    let central_dir_size := a.central_dir.length
    let p1 :=
      let r := zw__write_to_stream a a.central_dir
      (r.1, r.2)
    let a := { p1.1 with central_dir := [] }
    let result := p1.2
    let p2 := if result then
        let r := zw__write_to_stream a (zw__zip_eocd64_bytes a.num_files central_dir_size offset)
        (r.1, r.2)
      else (a, result)
    let a := p2.1
    let result := p2.2
    let r3 := zw__write_to_stream a (zw__zip_eocdloc64_bytes (offset + central_dir_size))
    let a := r3.1
    let result := result && r3.2
    if result then
      let r4 := zw__write_to_stream a zw__zip_eocd_bytes
      if r4.2 then zw__finish_close r4.1 result
      else { result := false, closed := 0, freed := false, final := some r4.1 }
    else zw__finish_close a result

/-! ## Concrete sinks used in the statements -/

/-- An observing sink over `σ := List Nat`: accumulates every byte,
never short-writes, never sets an error. -/
def zw__acc_write : List Nat → List Nat → (List Nat × Nat × Nat) :=
  fun st d => (st ++ d, d.length, 0)

/-- A session whose sink is the accumulating observer with a clean
error state. -/
def zw__acc_ok (s : zw__zip_details (List Nat)) : Prop :=
  s.stream.write = zw__acc_write ∧ s.stream.error = 0

/-- A sink with a byte budget over `σ := Nat`: accepts bytes until the
budget runs out, then short-writes; it sets no error code of its own
(the framer latches the default code 1 on the short write). -/
def zw__budget_write : Nat → List Nat → (Nat × Nat × Nat) :=
  fun st d => if d.length ≤ st then (st - d.length, d.length, 0) else (0, st, 0)

/-- A budget sink stream with `close` available. -/
def zw__budget_stream (budget : Nat) : zw_output_stream Nat where
  state := budget
  write := zw__budget_write
  has_close := true
  error := 0

/-- An accumulating observer stream with `close` available. -/
def zw__acc_stream : zw_output_stream (List Nat) where
  state := []
  write := zw__acc_write
  has_close := true
  error := 0

/-- A session as left behind by a sink failure while the first member is
active: one member begun (`num_files = 1`, `cf_name_length = 1`, the
DEFLATE block prelude `BFINAL=1, BTYPE=01` in the bit accumulator), the
sink error latched (`stream.error = 1`, and the sink accepts nothing
further). -/
def zw__c1_latched : zw__zip_details Unit where
  bitbuf := 3
  bitcount := 3
  quality := 8
  outbuf := []
  window := fun _ => 0
  in_cursor := 0
  hash_table := fun _ => []
  stream := { state := (), write := fun st _ => (st, 0, 0), has_close := false, error := 1 }
  offset := 31
  cf_start_offset := 0
  cf_compressed_size := 0
  cf_uncompressed_size := 0
  cf_crc := 0
  cf_name_length := 1
  cf_name := [97]
  time := 0
  date := 0
  central_dir := []
  num_files := 1

/-! # Theorems -/

/-- C5: for all byte buffers `b1`, `b2` and every prior CRC value,
`zw__crc32 (b1 ++ b2) prior = zw__crc32 b2 (zw__crc32 b1 prior)` — the
CRC-32 computation composes over splits of the input. -/
theorem zw__crc32_append (b1 b2 : List Nat) (prior : Nat) :
    zw__crc32 (b1 ++ b2) prior = zw__crc32 b2 (zw__crc32 b1 prior) := by
  unfold zw__crc32
  rw [List.foldl_append, Nat.xor_cancel_right]

/-- C6: `zw__crc32` over the 13 ASCII bytes of "hello, world!" with
initial value 0 returns 0x58988D13 (the IEEE CRC-32 of that string). -/
theorem zw__crc32_hello_world :
    zw__crc32 [104, 101, 108, 108, 111, 44, 32, 119, 111, 114, 108, 100, 33] 0 = 0x58988D13 := by
  decide

/-- C7: for every in-range local time (hour ≤ 23, minute ≤ 59,
second ≤ 59, 1980 ≤ year ≤ 2107, 1 ≤ month ≤ 12, 1 ≤ day ≤ 31) the
encoded DOS time is `second/2 | minute<<5 | hour<<11` and the encoded
DOS date is `day | month<<5 | (year-1980)<<9`; in particular
2024-06-15 13:45:32 encodes to date 0x58CF and time 0x6DB0. -/
theorem zw__zip_encode_spec (hour minute second year month day : Nat)
    (hh : hour ≤ 23) (hm : minute ≤ 59) (hs : second ≤ 59)
    (hy1 : 1980 ≤ year) (hy2 : year ≤ 2107)
    (hmo1 : 1 ≤ month) (hmo2 : month ≤ 12) (hd1 : 1 ≤ day) (hd2 : day ≤ 31) :
    zw__zip_encode_time hour minute second
      = second / 2 ||| (minute <<< 5) ||| (hour <<< 11)
    ∧ zw__zip_encode_date year month day
      = day ||| (month <<< 5) ||| ((year - 1980) <<< 9)
    ∧ zw__zip_encode_date 2024 6 15 = 0x58CF
    ∧ zw__zip_encode_time 13 45 32 = 0x6DB0 := by
  have p16 : (65536 : Nat) = 2 ^ 16 := by norm_num
  refine ⟨?_, ?_, by decide, by decide⟩
  · have c1 : (if hour > 23 then 23 else hour) = hour := if_neg (by omega)
    have c2 : (if minute > 59 then 59 else hour) = hour := if_neg (by omega)
    have c3 : (if second > 59 then 59 else second) = second := if_neg (by omega)
    have e1 : second >>> 1 = second / 2 := by
      rw [Nat.shiftRight_eq_div_pow]
      try norm_num
    simp only [zw__zip_encode_time, c1, c2, c3, e1]
    apply Nat.mod_eq_of_lt
    rw [p16]
    apply Nat.or_lt_two_pow
    apply Nat.or_lt_two_pow
    · omega
    · rw [Nat.shiftLeft_eq]; omega
    · rw [Nat.shiftLeft_eq]; omega
  · have d1 : (if year ≥ 1980 then year - 1980 else 0) = year - 1980 := if_pos (by omega)
    have d2 : (if year - 1980 > 127 then 127 else year - 1980) = year - 1980 :=
      if_neg (by omega)
    have d3 : (if month > 12 then 12 else month) = month := if_neg (by omega)
    have d4 : (if day > 31 then 31 else day) = day := if_neg (by omega)
    simp only [zw__zip_encode_date, d1, d2, d3, d4]
    apply Nat.mod_eq_of_lt
    rw [p16]
    apply Nat.or_lt_two_pow
    apply Nat.or_lt_two_pow
    · omega
    · rw [Nat.shiftLeft_eq]; omega
    · rw [Nat.shiftLeft_eq]; omega

/-- Witness for C7 at the concrete wall-clock 2024-06-15 13:45:32. -/
theorem zw__zip_encode_spec_witness :
    zw__zip_encode_time 13 45 32 = 32 / 2 ||| (45 <<< 5) ||| (13 <<< 11)
    ∧ zw__zip_encode_date 2024 6 15 = 15 ||| (6 <<< 5) ||| ((2024 - 1980) <<< 9)
    ∧ zw__zip_encode_date 2024 6 15 = 0x58CF
    ∧ zw__zip_encode_time 13 45 32 = 0x6DB0 :=
  zw__zip_encode_spec 13 45 32 2024 6 15 (by decide) (by decide) (by decide) (by decide)
    (by decide) (by decide) (by decide) (by decide) (by decide)

/-- C9: the hash-slot bound.  With `quality = 8`: one step of the match
search keeps every slot at ≤ 16 = 2·quality entries; a slot that has
grown to exactly 2·quality entries is trimmed to its newer half before
the new offset is appended; the trim-and-push itself can never push a
slot past 16 entries; and the window-slide rewrite never grows a slot. -/
theorem zw__hash_slot_bound (w : Nat → Nat) (dl i : Nat) (ht : Nat → List Nat)
    (hbound : ∀ s, (ht s).length ≤ 16) :
    (∀ s, (((zw__search_decide 8 w dl ht i).2) s).length ≤ 16)
    ∧ (∀ (slot : List Nat) (x : Nat), slot.length = 2 * 8 →
        zw__slot_update 8 slot x = slot.drop 8 ++ [x])
    ∧ (∀ (slot : List Nat) (x : Nat), slot.length ≤ 16 →
        (zw__slot_update 8 slot x).length ≤ 16)
    ∧ (∀ (c : Nat) (slot : List Nat), (zw__slide_slot c slot).length ≤ slot.length) := by
  have hup : ∀ (slot : List Nat) (x : Nat), slot.length ≤ 16 →
      (zw__slot_update 8 slot x).length ≤ 16 := by
    intro slot x hl
    unfold zw__slot_update
    split
    · simp only [List.length_append, List.length_drop, List.length_singleton]
      omega
    · simp only [List.length_append, List.length_singleton]
      omega
  refine ⟨?_, ?_, hup, ?_⟩
  · intro s
    unfold zw__search_decide
    dsimp only
    repeat' split
    all_goals dsimp only
    all_goals split
    all_goals first
      | exact hup _ _ (hbound _)
      | exact hbound _
  · intro slot x hl
    unfold zw__slot_update
    rw [if_pos hl]
  · intro c slot
    induction slot with
    | nil => simp [zw__slide_slot]
    | cons a rest ih =>
      unfold zw__slide_slot
      split
      · simpa using ih
      · simp only [List.length_cons]
        omega

/-- Witness for C9 on a concrete table (all slots empty). -/
theorem zw__hash_slot_bound_witness :
    (∀ s, (((zw__search_decide 8 (fun _ => 0) 0 (fun _ => []) 0).2) s).length ≤ 16)
    ∧ (∀ (slot : List Nat) (x : Nat), slot.length = 2 * 8 →
        zw__slot_update 8 slot x = slot.drop 8 ++ [x])
    ∧ (∀ (slot : List Nat) (x : Nat), slot.length ≤ 16 →
        (zw__slot_update 8 slot x).length ≤ 16)
    ∧ (∀ (c : Nat) (slot : List Nat), (zw__slide_slot c slot).length ≤ slot.length) :=
  zw__hash_slot_bound (fun _ => 0) 0 0 (fun _ => []) (fun _ => by simp)

/-! ### Support lemmas for the `zw__zlib_countm` SSE/scalar equivalence -/

theorem zw__movemask_testBit (a b : Nat → Nat) :
    ∀ (n base k : Nat),
      (zw__movemask a b base n).testBit k = decide (k < n ∧ a (base + k) = b (base + k)) := by
  intro n
  induction n with
  | zero => intro base k; simp [zw__movemask]
  | succ n ih =>
    intro base k
    match k with
    | 0 =>
      rw [zw__movemask, Nat.testBit_zero]
      by_cases hab : a base = b base
      · rw [if_pos hab]
        simp only [Nat.add_zero] at *
        simp [hab]
      · rw [if_neg hab]
        simp only [Nat.add_zero] at *
        simp [hab]
    | k + 1 =>
      rw [zw__movemask, Nat.testBit_add_one]
      have hdiv : ((if a base = b base then 1 else 0) + 2 * zw__movemask a b (base + 1) n) / 2
          = zw__movemask a b (base + 1) n := by
        split <;> omega
      rw [hdiv, ih]
      rw [decide_eq_decide]
      have e2 : base + 1 + k = base + (k + 1) := by omega
      rw [e2]
      constructor
      · rintro ⟨h1, h2⟩; exact ⟨by omega, h2⟩
      · rintro ⟨h1, h2⟩; exact ⟨by omega, h2⟩

theorem zw__movemask_lt (a b : Nat → Nat) :
    ∀ (n base : Nat), zw__movemask a b base n < 2 ^ n := by
  intro n
  induction n with
  | zero => intro base; simp [zw__movemask]
  | succ n ih =>
    intro base
    rw [zw__movemask]
    have h1 := ih (base + 1)
    have h2 : 2 ^ (n + 1) = 2 * 2 ^ n := by rw [Nat.pow_succ]; ring
    split <;> omega

theorem zw__bsf_spec : ∀ (m : Nat), m ≠ 0 →
    m.testBit (zw__bsf m) = true ∧ ∀ j < zw__bsf m, m.testBit j = false := by
  intro m
  induction m using Nat.strong_induction_on with
  | _ m ih =>
    intro hm
    rw [zw__bsf]
    rw [dif_neg hm]
    by_cases hodd : m % 2 = 1
    · rw [if_pos hodd]
      refine ⟨by rw [Nat.testBit_zero]; simpa, ?_⟩
      intro j hj
      omega
    · rw [if_neg hodd]
      have hhalf : m / 2 ≠ 0 := by omega
      have hlt : m / 2 < m := Nat.div_lt_self (by omega) (by omega)
      obtain ⟨hbit, hbelow⟩ := ih (m / 2) hlt hhalf
      constructor
      · rw [show 1 + zw__bsf (m / 2) = zw__bsf (m / 2) + 1 by omega, Nat.testBit_add_one]
        exact hbit
      · intro j hj
        match j with
        | 0 =>
          rw [Nat.testBit_zero]
          simp only [decide_eq_false_iff_not]
          omega
        | j + 1 =>
          rw [Nat.testBit_add_one]
          exact hbelow j (by omega)

/-- The combined 32-lane mask of the 32-byte SSE loop has bit `k` set
exactly when lane `k` (byte `i + k`) compares equal. -/
theorem zw__mask32_testBit (a b : Nat → Nat) (i : Nat) :
    ∀ k, ((zw__movemask a b i 16) ||| ((zw__movemask a b (i + 16) 16) <<< 16)).testBit k
      = decide (k < 32 ∧ a (i + k) = b (i + k)) := by
  intro k
  rw [Nat.testBit_or, Nat.testBit_shiftLeft, zw__movemask_testBit, zw__movemask_testBit]
  rcases Nat.lt_or_ge k 16 with hk | hk
  · have h1 : ¬(k ≥ 16) := by omega
    simp only [ge_iff_le, decide_eq_false h1, Bool.false_and, Bool.or_false]
    rw [decide_eq_decide]
    constructor
    · rintro ⟨_, h⟩; exact ⟨by omega, h⟩
    · rintro ⟨_, h⟩; exact ⟨by omega, h⟩
  · have h0 : ¬(k < 16) := by omega
    have e2 : i + 16 + (k - 16) = i + k := by omega
    simp only [ge_iff_le, decide_eq_true hk, Bool.true_and, e2]
    by_cases hab : a (i + k) = b (i + k)
    · simp only [hab, eq_self_iff_true, and_true]
      rw [decide_eq_false h0, Bool.false_or, decide_eq_decide]
      omega
    · simp [hab]

/-- Inverting an equality mask of width `W` (xor with `2^W - 1`) yields
the difference mask: zero exactly when all `W` lanes agree, and
otherwise `zw__bsf` finds the first differing lane. -/
theorem zw__mask_spec (a b : Nat → Nat) (i W C : Nat)
    (HC : ∀ k, C.testBit k = decide (k < W ∧ a (i + k) = b (i + k))) :
    ((C ^^^ (2 ^ W - 1)) = 0 ↔ ∀ k < W, a (i + k) = b (i + k))
    ∧ ((C ^^^ (2 ^ W - 1)) ≠ 0 →
        zw__bsf (C ^^^ (2 ^ W - 1)) < W
        ∧ a (i + zw__bsf (C ^^^ (2 ^ W - 1))) ≠ b (i + zw__bsf (C ^^^ (2 ^ W - 1)))
        ∧ ∀ j < zw__bsf (C ^^^ (2 ^ W - 1)), a (i + j) = b (i + j)) := by
  have hD : ∀ k, (C ^^^ (2 ^ W - 1)).testBit k
      = decide (k < W ∧ ¬(a (i + k) = b (i + k))) := by
    intro k
    rw [Nat.testBit_xor, HC, Nat.testBit_two_pow_sub_one]
    by_cases hk : k < W
    · by_cases hab : a (i + k) = b (i + k) <;> simp [hk, hab]
    · simp [hk]
  constructor
  · constructor
    · intro h0 k hk
      by_contra hne
      have : (C ^^^ (2 ^ W - 1)).testBit k = true := by
        rw [hD]; simpa [hk]
      rw [h0, Nat.zero_testBit] at this
      exact Bool.noConfusion this
    · intro hall
      apply Nat.eq_of_testBit_eq
      intro k
      rw [hD, Nat.zero_testBit]
      by_cases hk : k < W
      · simp [hall k hk]
      · simp [hk]
  · intro hne
    obtain ⟨hbit, hbelow⟩ := zw__bsf_spec _ hne
    rw [hD] at hbit
    have hmain : zw__bsf (C ^^^ (2 ^ W - 1)) < W
        ∧ ¬(a (i + zw__bsf (C ^^^ (2 ^ W - 1))) = b (i + zw__bsf (C ^^^ (2 ^ W - 1)))) := by
      simpa using hbit
    refine ⟨hmain.1, hmain.2, ?_⟩
    intro j hj
    have := hbelow j hj
    rw [hD] at this
    by_contra hcon
    have hjW : j < W := by omega
    simp [hjW, hcon] at this

/-- `zw__countm_tail` from position `i` computes the capped common-run
length, given that all bytes before `i` already agree. -/
theorem zw__countm_tail_spec (a b : Nat → Nat) (limit : Nat) :
    ∀ (i : Nat), i ≤ limit → (∀ k < i, a k = b k) →
      zw__lcp_spec a b limit (zw__countm_tail a b limit i) := by
  have key : ∀ (n i : Nat), limit - i = n → i ≤ limit → (∀ k < i, a k = b k) →
      zw__lcp_spec a b limit (zw__countm_tail a b limit i) := by
    intro n
    induction n using Nat.strong_induction_on with
    | _ n ih =>
      intro i hn hi hpre
      rw [zw__countm_tail.eq_def]
      split
      · rename_i hlt
        split
        · rename_i hne
          exact ⟨by omega, hpre, fun _ => hne⟩
        · rename_i heq
          have heq2 : a i = b i := by
            by_contra hcon
            exact heq hcon
          apply ih (limit - (i + 1)) (by omega) (i + 1) rfl (by omega)
          intro k hk
          rcases Nat.lt_or_ge k i with hk2 | hk2
          · exact hpre k hk2
          · have : k = i := by omega
            rw [this]; exact heq2
      · rename_i hge
        have : i = limit := by omega
        exact ⟨by omega, hpre, by omega⟩
  intro i
  exact key (limit - i) i rfl

/-- The capped common-run length is unique. -/
theorem zw__lcp_unique (a b : Nat → Nat) (m r1 r2 : Nat)
    (h1 : zw__lcp_spec a b m r1) (h2 : zw__lcp_spec a b m r2) : r1 = r2 := by
  obtain ⟨hle1, hpre1, hdiff1⟩ := h1
  obtain ⟨hle2, hpre2, hdiff2⟩ := h2
  rcases Nat.lt_trichotomy r1 r2 with h | h | h
  · exact absurd (hpre2 r1 h) (hdiff1 (by omega))
  · exact h
  · exact absurd (hpre1 r2 h) (hdiff2 (by omega))

theorem zw__countm_block16_spec (a b : Nat → Nat) (limit : Nat) (i : Nat)
    (hi : i ≤ limit) (hpre : ∀ k < i, a k = b k) :
    zw__lcp_spec a b limit (zw__countm_block16 a b limit i) := by
  have h16 : (65535 : Nat) = 2 ^ 16 - 1 := by norm_num
  rw [zw__countm_block16]
  split
  · rename_i hin
    dsimp only
    have hms := zw__mask_spec a b i 16 (zw__movemask a b i 16) (zw__movemask_testBit a b 16 i)
    rw [← h16] at hms
    split
    · rename_i hne
      obtain ⟨hlt, hdiff, hbelow⟩ := hms.2 hne
      refine ⟨by omega, ?_, fun _ => hdiff⟩
      intro k hk
      rcases Nat.lt_or_ge k i with hk2 | hk2
      · exact hpre k hk2
      · have : k = i + (k - i) := by omega
        rw [this]
        exact hbelow (k - i) (by omega)
    · rename_i heq0
      have hall := hms.1.mp (by omega)
      apply zw__countm_tail_spec a b limit (i + 16) (by omega)
      intro k hk
      rcases Nat.lt_or_ge k i with hk2 | hk2
      · exact hpre k hk2
      · have : k = i + (k - i) := by omega
        rw [this]
        exact hall (k - i) (by omega)
  · exact zw__countm_tail_spec a b limit i hi hpre

theorem zw__countm_loop32_spec (a b : Nat → Nat) (limit : Nat) :
    ∀ (i : Nat), i ≤ limit → (∀ k < i, a k = b k) →
      zw__lcp_spec a b limit (zw__countm_loop32 a b limit i) := by
  have h32 : (4294967295 : Nat) = 2 ^ 32 - 1 := by norm_num
  have key : ∀ (n i : Nat), limit - i = n → i ≤ limit → (∀ k < i, a k = b k) →
      zw__lcp_spec a b limit (zw__countm_loop32 a b limit i) := by
    intro n
    induction n using Nat.strong_induction_on with
    | _ n ih =>
      intro i hn hi hpre
      rw [zw__countm_loop32.eq_def]
      split
      · rename_i hin
        dsimp only
        have hms := zw__mask_spec a b i 32
          ((zw__movemask a b i 16) ||| ((zw__movemask a b (i + 16) 16) <<< 16))
          (zw__mask32_testBit a b i)
        rw [← h32] at hms
        split
        · rename_i hne
          obtain ⟨hlt, hdiff, hbelow⟩ := hms.2 hne
          refine ⟨by omega, ?_, fun _ => hdiff⟩
          intro k hk
          rcases Nat.lt_or_ge k i with hk2 | hk2
          · exact hpre k hk2
          · have : k = i + (k - i) := by omega
            rw [this]
            exact hbelow (k - i) (by omega)
        · rename_i heq0
          have hall := hms.1.mp (by omega)
          apply ih (limit - (i + 32)) (by omega) (i + 32) rfl (by omega)
          intro k hk
          rcases Nat.lt_or_ge k i with hk2 | hk2
          · exact hpre k hk2
          · have : k = i + (k - i) := by omega
            rw [this]
            exact hall (k - i) (by omega)
      · exact zw__countm_block16_spec a b limit i hi hpre
  intro i
  exact key (limit - i) i rfl

/-- C10: `zw__zlib_countm` (the SSE build) returns exactly what the
plain scalar byte-comparison loop (`zw__countm_tail` from 0) returns,
and that value is the length of the longest common byte prefix of `a`
and `b` capped at `min limit 258`. -/
theorem zw__zlib_countm_spec (a b : Nat → Nat) (limit : Nat) :
    zw__zlib_countm a b limit = zw__countm_tail a b (min limit 258) 0
    ∧ zw__lcp_spec a b (min limit 258) (zw__zlib_countm a b limit) := by
  have hcap : (if limit > 258 then 258 else limit) = min limit 258 := by
    split <;> omega
  have hsse : zw__lcp_spec a b (min limit 258) (zw__zlib_countm a b limit) := by
    unfold zw__zlib_countm
    rw [hcap]
    exact zw__countm_loop32_spec a b (min limit 258) 0 (by omega) (by omega)
  have htail := zw__countm_tail_spec a b (min limit 258) 0 (by omega) (by omega)
  exact ⟨zw__lcp_unique a b (min limit 258) _ _ hsse htail, hsse⟩

/-- C1 (amended): `zw_write` returns failure exactly when the handle is
NULL or `num_files` is zero (no member was ever begun); in particular a
latched sink error does not make `zw_write` fail. -/
theorem zw_write_fail_iff {σ : Type} (archive : zw_zip σ) (data : List Nat) :
    (zw_write archive data).2 = false ↔
      archive = none ∨ ∃ a, archive = some a ∧ a.num_files = 0 := by
  match archive with
  | none => simp [zw_write]
  | some a =>
    by_cases h : a.num_files = 0
    · simp only [zw_write, if_pos h]
      constructor
      · intro _
        exact Or.inr ⟨a, rfl, h⟩
      · intro _
        trivial
    · simp only [zw_write, if_neg h]
      constructor
      · intro hfalse
        exact absurd hfalse (by simp)
      · rintro (hn | ⟨a2, ha2, h2⟩)
        · exact Option.noConfusion hn
        · injection ha2 with he
          rw [he] at h
          exact absurd h2 h

/-- C1 counterexample to the claim as stated: a session with a member
active and a latched sink error, on which `zw_write` still returns
success — refuting "once a sink error has latched into the session,
every subsequent `zw_write` call is a no-op that returns failure".
(`zw_write` never consults `stream.error`; the latched error only makes
the buffer flushes inside `zw__write_to_stream` silently fail.) -/
theorem zw_write_after_error_returns_true :
    zw__c1_latched.stream.error = 1
    ∧ zw__c1_latched.num_files = 1
    ∧ zw__c1_latched.cf_name_length = 1
    ∧ (zw_write (some zw__c1_latched) [65]).2 = true :=
  ⟨rfl, rfl, rfl, rfl⟩

/-- The lazy-match scan fires exactly when some candidate in the slot
lies beyond `i + 1` and matches strictly longer than `best`. -/
theorem zw__lazy_bail_iff (w : Nat → Nat) (dl i best : Nat) :
    ∀ l : List Nat, zw__lazy_bail w i dl best l = true ↔
      ∃ ofs ∈ l, ofs > i + 1 ∧
        zw__zlib_countm (fun k => w (ofs + k)) (fun k => w (32768 + i + 1 + k)) (dl - i - 1)
          > best := by
  intro l
  induction l with
  | nil => simp [zw__lazy_bail]
  | cons ofs rest ih =>
    unfold zw__lazy_bail
    split
    · rename_i hgt
      dsimp only
      split
      · rename_i he
        simp only [true_iff]
        exact ⟨ofs, List.mem_cons_self ofs rest, hgt, he⟩
      · rename_i hne
        rw [ih]
        constructor
        · rintro ⟨o, ho, h1, h2⟩
          exact ⟨o, List.mem_cons_of_mem _ ho, h1, h2⟩
        · rintro ⟨o, ho, h1, h2⟩
          rcases List.mem_cons.mp ho with rfl | ho2
          · exact absurd h2 hne
          · exact ⟨o, ho2, h1, h2⟩
    · rename_i hgt
      rw [ih]
      constructor
      · rintro ⟨o, ho, h1, h2⟩
        exact ⟨o, List.mem_cons_of_mem _ ho, h1, h2⟩
      · rintro ⟨o, ho, h1, h2⟩
        rcases List.mem_cons.mp ho with rfl | ho2
        · exact absurd h1 hgt
        · exact ⟨o, ho2, h1, h2⟩

/-- Case analysis of the lazy-match step over an arbitrary updated
table `g`: the step yields a literal exactly when the scan fires. -/
theorem zw__lazy_step_aux (w : Nat → Nat) (dl i best loc : Nat) (g : Nat → List Nat) :
    (((if zw__lazy_bail w i dl best (g (zw__hash_at w (i + 1))) = true
        then (zw__decision.lit, g) else (zw__decision.emit_match best loc, g)).1
        = zw__decision.lit) ↔
      ∃ ofs ∈ g (zw__hash_at w (i + 1)),
        ofs > i + 1 ∧
        zw__zlib_countm (fun k => w (ofs + k)) (fun k => w (32768 + i + 1 + k)) (dl - i - 1)
          > best)
    ∧ (((if zw__lazy_bail w i dl best (g (zw__hash_at w (i + 1))) = true
        then (zw__decision.lit, g) else (zw__decision.emit_match best loc, g)).1
        = zw__decision.emit_match best loc) ↔
      ¬ ∃ ofs ∈ g (zw__hash_at w (i + 1)),
        ofs > i + 1 ∧
        zw__zlib_countm (fun k => w (ofs + k)) (fun k => w (32768 + i + 1 + k)) (dl - i - 1)
          > best) := by
  by_cases hb : zw__lazy_bail w i dl best (g (zw__hash_at w (i + 1))) = true
  · rw [if_pos hb]
    constructor
    · exact ⟨fun _ => (zw__lazy_bail_iff w dl i best _).mp hb, fun _ => rfl⟩
    · constructor
      · intro hcon
        exact zw__decision.noConfusion hcon
      · intro hnot
        exact absurd ((zw__lazy_bail_iff w dl i best _).mp hb) hnot
  · rw [if_neg hb]
    constructor
    · constructor
      · intro hcon
        exact zw__decision.noConfusion hcon
      · intro hex
        exact absurd ((zw__lazy_bail_iff w dl i best _).mpr hex) hb
    · constructor
      · intro _ hex
        exact absurd ((zw__lazy_bail_iff w dl i best _).mpr hex) hb
      · intro _
        rfl

/-- C8: when the candidate scan at position `i` found a match
(`best`, `loc`), the step discards it — deciding to emit `data[i]` as a
literal and advance by 1 — exactly when the post-push slot of the hash
at `i + 1` holds a candidate beyond `i + 1` whose common-prefix length
is strictly greater than `best`; otherwise (in particular when every
such candidate matches exactly `best`) the match itself is emitted. -/
theorem zw__lazy_match_spec (w : Nat → Nat) (dl : Nat) (ht : Nat → List Nat) (i best loc : Nat)
    (hfound : zw__match_best w i dl 3 none (ht (zw__hash_at w i)) = (best, some loc)) :
    ((zw__search_decide 8 w dl ht i).1 = zw__decision.lit ↔
      ∃ ofs ∈ (zw__search_decide 8 w dl ht i).2 (zw__hash_at w (i + 1)),
        ofs > i + 1 ∧
        zw__zlib_countm (fun k => w (ofs + k)) (fun k => w (32768 + i + 1 + k)) (dl - i - 1)
          > best)
    ∧ ((zw__search_decide 8 w dl ht i).1 = zw__decision.emit_match best loc ↔
      ¬ ∃ ofs ∈ (zw__search_decide 8 w dl ht i).2 (zw__hash_at w (i + 1)),
        ofs > i + 1 ∧
        zw__zlib_countm (fun k => w (ofs + k)) (fun k => w (32768 + i + 1 + k)) (dl - i - 1)
          > best) := by
  have hsnd : ∀ (c : Prop) [Decidable c] (x₁ x₂ : zw__decision) (g : Nat → List Nat),
      (if c then (x₁, g) else (x₂, g)).2 = g := by
    intro c _ x₁ x₂ g
    split <;> rfl
  unfold zw__search_decide
  dsimp only
  rw [hfound]
  dsimp only
  rw [hsnd]
  exact zw__lazy_step_aux w dl i best loc
    (fun s => if s = zw__hash_at w i
      then zw__slot_update 8 (ht (zw__hash_at w i)) (i + 32768) else ht s)

/-- Witness for C8, on the all-zero window with one candidate at
offset 10 and 9 pending bytes: the scan finds the 9-byte match
(9, some 10); no lazy candidate beats it, so the match is emitted. -/
theorem zw__lazy_match_spec_witness :
    (((zw__search_decide 8 (fun _ => 0) 9 (fun _ => [10]) 0).1 = zw__decision.lit ↔
      ∃ ofs ∈ (zw__search_decide 8 (fun _ => 0) 9 (fun _ => [10]) 0).2
          (zw__hash_at (fun _ => 0) (0 + 1)),
        ofs > 0 + 1 ∧
        zw__zlib_countm (fun k => (fun _ => 0) (ofs + k))
          (fun k => (fun _ => 0) (32768 + 0 + 1 + k)) (9 - 0 - 1) > 9)
    ∧ ((zw__search_decide 8 (fun _ => 0) 9 (fun _ => [10]) 0).1
          = zw__decision.emit_match 9 10 ↔
      ¬ ∃ ofs ∈ (zw__search_decide 8 (fun _ => 0) 9 (fun _ => [10]) 0).2
          (zw__hash_at (fun _ => 0) (0 + 1)),
        ofs > 0 + 1 ∧
        zw__zlib_countm (fun k => (fun _ => 0) (ofs + k))
          (fun k => (fun _ => 0) (32768 + 0 + 1 + k)) (9 - 0 - 1) > 9)) :=
  zw__lazy_match_spec (fun _ => 0) 9 (fun _ => [10]) 0 9 10 (by
    simp [zw__match_best, zw__zlib_countm, zw__countm_loop32, zw__countm_block16,
      zw__countm_tail])

/-! ### The accumulating observer sink: evaluation and preservation -/

/-- With the accumulating sink and no latched error, a stream write
appends the bytes, advances the offset, and succeeds. -/
theorem zw__write_to_stream_acc (s : zw__zip_details (List Nat)) (hacc : zw__acc_ok s)
    (d : List Nat) :
    zw__write_to_stream s d =
      ({ s with stream := { s.stream with state := s.stream.state ++ d },
                offset := s.offset + d.length }, true) := by
  obtain ⟨hw, he⟩ := hacc
  unfold zw__write_to_stream
  split
  · rename_i h0
    have hd : d = [] := List.length_eq_zero.mp h0
    subst hd
    simp
  · rw [if_neg (by simp [he])]
    dsimp only
    rw [hw]
    simp only [zw__acc_write]
    simp [he]

theorem zw__write_to_stream_acc_ok (s : zw__zip_details (List Nat)) (hacc : zw__acc_ok s)
    (d : List Nat) : zw__acc_ok (zw__write_to_stream s d).1 := by
  rw [zw__write_to_stream_acc s hacc d]
  exact ⟨hacc.1, hacc.2⟩

theorem zw__flush_compressed_acc (s : zw__zip_details (List Nat)) (hacc : zw__acc_ok s) :
    zw__acc_ok (zw__flush_compressed_bytes s) := by
  unfold zw__flush_compressed_bytes
  split
  · have h1 := zw__write_to_stream_acc_ok
      { s with cf_compressed_size := s.cf_compressed_size + s.outbuf.length }
      ⟨hacc.1, hacc.2⟩ s.outbuf
    exact ⟨h1.1, h1.2⟩
  · exact hacc

theorem zw__flush_bits_acc (s : zw__zip_details (List Nat)) (hacc : zw__acc_ok s) :
    zw__acc_ok (zw__flush_bits s) := by
  generalize hn : s.bitcount = n
  induction n using Nat.strong_induction_on generalizing s with
  | _ n ih =>
    rw [zw__flush_bits.eq_def]
    split
    · rename_i h
      apply ih (n - 8) (by omega)
      · dsimp only
        split
        · exact zw__flush_compressed_acc _ ⟨hacc.1, hacc.2⟩
        · exact hacc
      · dsimp only
        split
        · rw [zw__flush_compressed_bitcount]
          dsimp only
          omega
        · dsimp only
          omega
    · exact hacc

theorem zw__zlib_add_acc (s : zw__zip_details (List Nat)) (hacc : zw__acc_ok s)
    (code codebits : Nat) : zw__acc_ok (zw__zlib_add s code codebits) :=
  zw__flush_bits_acc _ ⟨hacc.1, hacc.2⟩

theorem zw__zlib_huffa_acc (s : zw__zip_details (List Nat)) (hacc : zw__acc_ok s)
    (b c : Nat) : zw__acc_ok (zw__zlib_huffa s b c) :=
  zw__zlib_add_acc _ hacc _ _

theorem zw__zlib_huff_acc (s : zw__zip_details (List Nat)) (hacc : zw__acc_ok s)
    (n : Nat) : zw__acc_ok (zw__zlib_huff s n) := by
  unfold zw__zlib_huff
  split
  · exact zw__zlib_huffa_acc _ hacc _ _
  · split
    · exact zw__zlib_huffa_acc _ hacc _ _
    · split
      · exact zw__zlib_huffa_acc _ hacc _ _
      · exact zw__zlib_huffa_acc _ hacc _ _

theorem zw__zlib_huffb_acc (s : zw__zip_details (List Nat)) (hacc : zw__acc_ok s)
    (n : Nat) : zw__acc_ok (zw__zlib_huffb s n) := by
  unfold zw__zlib_huffb
  split
  · exact zw__zlib_huffa_acc _ hacc _ _
  · exact zw__zlib_huffa_acc _ hacc _ _

theorem zw__pad_measure_step (c : Nat) (h : c ≠ 0) :
    zw__pad_measure ((c + 1) % 8) < zw__pad_measure c := by
  unfold zw__pad_measure
  rw [if_neg h]
  split <;> omega

theorem zw__pad_bits_acc (s : zw__zip_details (List Nat)) (hacc : zw__acc_ok s) :
    zw__acc_ok (zw__pad_bits s) := by
  generalize hn : zw__pad_measure s.bitcount = n
  induction n using Nat.strong_induction_on generalizing s with
  | _ n ih =>
    rw [zw__pad_bits.eq_def]
    split
    · exact hacc
    · rename_i h
      exact ih _ (by rw [zw__zlib_add_bitcount, ← hn]; exact zw__pad_measure_step _ h)
        _ (zw__zlib_add_acc _ hacc _ _) rfl

theorem zw__flush_loop_acc (dl : Nat) (s : zw__zip_details (List Nat)) (i : Nat)
    (hacc : zw__acc_ok s) : zw__acc_ok ((zw__flush_loop dl s i).1) := by
  have hif : ∀ (c : Prop) [Decidable c] (t : zw__zip_details (List Nat)) (x y : Nat),
      zw__acc_ok t → zw__acc_ok (if c then zw__zlib_add t x y else t) := by
    intro c _ t x y ht
    split
    · exact zw__zlib_add_acc _ ht _ _
    · exact ht
  generalize hn : dl - i = n
  induction n using Nat.strong_induction_on generalizing s i with
  | _ n ih =>
    rw [zw__flush_loop.eq_def]
    split
    · rename_i hguard
      dsimp only
      split
      · rename_i heq
        apply ih (dl - (i + 1)) (by omega) _ _ _ rfl
        exact zw__zlib_huffb_acc
          { s with hash_table := (zw__search_decide s.quality s.window dl s.hash_table i).2 }
          ⟨hacc.1, hacc.2⟩ _
      · rename_i best loc heq
        have hbest : 3 ≤ best := zw__search_decide_emit_ge _ _ _ _ _ _ _ (by exact heq)
        apply ih (dl - (i + best)) (by omega) _ _ _ rfl
        apply hif
        apply zw__zlib_add_acc
        apply hif
        exact zw__zlib_huff_acc
          { s with hash_table := (zw__search_decide s.quality s.window dl s.hash_table i).2 }
          ⟨hacc.1, hacc.2⟩ _
    · exact hacc

theorem zw__emit_tail_acc (dl : Nat) (s : zw__zip_details (List Nat)) (i : Nat)
    (hacc : zw__acc_ok s) : zw__acc_ok (zw__emit_tail dl s i) := by
  generalize hn : dl - i = n
  induction n using Nat.strong_induction_on generalizing s i with
  | _ n ih =>
    rw [zw__emit_tail.eq_def]
    split
    · rename_i h
      apply ih (dl - (i + 1)) (by omega) _ _ _ rfl
      exact zw__zlib_huffb_acc _ hacc _
    · exact hacc

theorem zw__flush_input_acc (s : zw__zip_details (List Nat)) (hacc : zw__acc_ok s) :
    zw__acc_ok (zw__flush_input s) := by
  unfold zw__flush_input
  split
  · exact hacc
  · dsimp only
    have h1 := zw__flush_loop_acc s.in_cursor s 0 hacc
    have h2 := zw__emit_tail_acc s.in_cursor (zw__flush_loop s.in_cursor s 0).1
      (zw__flush_loop s.in_cursor s 0).2 h1
    exact ⟨h2.1, h2.2⟩

/-- A bit-writer flush with fewer than 8 pending bits is a no-op. -/
theorem zw__flush_bits_small {σ : Type} (s : zw__zip_details σ) (h : s.bitcount < 8) :
    zw__flush_bits s = s := by
  rw [zw__flush_bits.eq_def, dif_neg (by omega)]

/-- `zw__zlib_add` that stays under a byte only updates the accumulator. -/
theorem zw__zlib_add_small {σ : Type} (s : zw__zip_details σ) (code codebits : Nat)
    (h : s.bitcount + codebits < 8) :
    zw__zlib_add s code codebits =
      { s with bitbuf := (s.bitbuf ||| (code <<< s.bitcount)) % 4294967296,
               bitcount := s.bitcount + codebits } := by
  unfold zw__zlib_add
  exact zw__flush_bits_small _ (by dsimp only; omega)

/-- The DEFLATE block prelude emission (`add(1,1); add(1,2)`) on an
empty bit accumulator. -/
theorem zw__prelude_adds {σ : Type} (s : zw__zip_details σ)
    (hb : s.bitbuf = 0) (hc : s.bitcount = 0) :
    zw__zlib_add (zw__zlib_add s 1 1) 1 2 = { s with bitbuf := 3, bitcount := 3 } := by
  rw [zw__zlib_add_small s 1 1 (by omega)]
  rw [zw__zlib_add_small _ 1 2 (by dsimp only; omega)]
  dsimp only
  rw [hb, hc]
  have e : (((0 : Nat) ||| 1 <<< 0) % 4294967296 ||| 1 <<< (0 + 1)) % 4294967296 = 3 := by
    decide
  rw [e]

/-- `zw_begin_file` on a fresh session with the observing sink: writes
the 30-byte local header and the name, initializes the member state,
and emits the DEFLATE block prelude (`BFINAL=1`, `BTYPE=01`), leaving
`bitbuf = 3`, `bitcount = 3`. -/
theorem zw__begin_fresh (yy mo dd hh mi ss : Nat) (name : List Nat)
    (h1 : name ≠ []) (h2 : name.length ≤ 65534) :
    zw__begin_file_impl (zw_create_ex zw__acc_stream yy mo dd hh mi ss) name =
      ({ bitbuf := 3, bitcount := 3, quality := 8, outbuf := [],
         window := fun _ => 0, in_cursor := 0, hash_table := fun _ => [],
         stream := {
           state := zw__zip_local_file_header_bytes (zw__zip_encode_time hh mi ss)
                        (zw__zip_encode_date yy mo dd) name.length ++ name,
           write := zw__acc_write, has_close := true, error := 0 },
         offset := 30 + name.length,
         cf_start_offset := 0, cf_compressed_size := 0, cf_uncompressed_size := 0,
         cf_crc := 0, cf_name_length := name.length, cf_name := name,
         time := zw__zip_encode_time hh mi ss, date := zw__zip_encode_date yy mo dd,
         central_dir := [], num_files := 1 }, true) := by
  have hend : zw__zip_end_file (zw_create_ex zw__acc_stream yy mo dd hh mi ss)
      = (zw_create_ex zw__acc_stream yy mo dd hh mi ss, false) := by
    unfold zw__zip_end_file
    rw [if_pos (show (zw_create_ex zw__acc_stream yy mo dd hh mi ss).cf_name_length = 0
      from rfl)]
  have hlhlen : (zw__zip_local_file_header_bytes
      (zw__zip_encode_time hh mi ss) (zw__zip_encode_date yy mo dd) name.length).length
      = 30 := by
    simp [zw__zip_local_file_header_bytes, zw__le16, zw__le32]
  unfold zw__begin_file_impl
  rw [hend]
  dsimp only [zw_create_ex, zw__acc_stream]
  rw [if_neg h1, if_neg (show ¬(name.length > 65534) by omega)]
  rw [zw__write_to_stream_acc _ ⟨rfl, rfl⟩]
  dsimp only
  rw [if_neg (show ¬((!true) = true) by simp)]
  rw [zw__write_to_stream_acc _ ⟨rfl, rfl⟩]
  dsimp only
  rw [if_neg (show ¬((!true) = true) by simp)]
  rw [if_neg (show ¬((1 : Nat) - 1 ≠ 0) by omega)]
  rw [zw__prelude_adds _ rfl rfl]
  rw [List.take_length]
  norm_num [hlhlen]

/-- `zw__zlib_add` that crosses exactly one byte boundary (without
filling the output buffer): drains one byte. -/
theorem zw__zlib_add_cross {σ : Type} (s : zw__zip_details σ) (code codebits : Nat)
    (h8 : 8 ≤ s.bitcount + codebits) (h16 : s.bitcount + codebits < 16)
    (hout : s.outbuf.length + 1 ≠ 32768) :
    zw__zlib_add s code codebits =
      { s with outbuf := s.outbuf ++ [(s.bitbuf ||| (code <<< s.bitcount)) % 4294967296 % 256],
               bitbuf := (s.bitbuf ||| (code <<< s.bitcount)) % 4294967296 / 256,
               bitcount := s.bitcount + codebits - 8 } := by
  unfold zw__zlib_add
  rw [zw__flush_bits.eq_def]
  rw [dif_pos (show 8 ≤ ({ s with
      bitbuf := (s.bitbuf ||| (code <<< s.bitcount)) % 4294967296,
      bitcount := s.bitcount + codebits } : zw__zip_details σ).bitcount by dsimp only; omega)]
  dsimp only
  rw [if_neg (show ¬(s.outbuf ++
      [(s.bitbuf ||| (code <<< s.bitcount)) % 4294967296 % 256]).length = 32768 by
    rw [List.length_append]; simpa using hout)]
  rw [zw__flush_bits_small _ (by dsimp only; omega)]

/-- The byte-boundary padding loop on a non-empty accumulator of fewer
than 8 bits: appends the remaining byte (the pad bits are zero) and
clears the accumulator. -/
theorem zw__pad_bits_cross {σ : Type} (s : zw__zip_details σ)
    (h1 : s.bitcount ≠ 0) (h7 : s.bitcount < 8) (hout : s.outbuf.length + 1 ≠ 32768) :
    zw__pad_bits s =
      { s with outbuf := s.outbuf ++ [s.bitbuf % 4294967296 % 256],
               bitbuf := s.bitbuf % 4294967296 / 256, bitcount := 0 } := by
  have hmm2 : ∀ x : Nat, x % 4294967296 % 4294967296 = x % 4294967296 := by
    intro x; omega
  generalize hn : 8 - s.bitcount = n
  induction n using Nat.strong_induction_on generalizing s with
  | _ n ih =>
    rw [zw__pad_bits.eq_def, dif_neg h1]
    by_cases hc : s.bitcount = 7
    · rw [zw__zlib_add_cross s 0 1 (by omega) (by omega) hout]
      simp only [Nat.zero_shiftLeft, Nat.or_zero]
      rw [zw__pad_bits.eq_def, dif_pos (by dsimp only; omega)]
      have hz : s.bitcount + 1 - 8 = 0 := by omega
      rw [hz]
    · rw [zw__zlib_add_small s 0 1 (by omega)]
      simp only [Nat.zero_shiftLeft, Nat.or_zero]
      rw [ih (8 - (s.bitcount + 1)) (by omega) _ (by dsimp only; omega)
        (by dsimp only; omega) (by dsimp only; simpa using hout) rfl]
      dsimp only
      rw [hmm2]

/-- A flush of a non-empty output buffer through the observing sink. -/
theorem zw__flush_compressed_acc_eq (s : zw__zip_details (List Nat))
    (hacc : zw__acc_ok s) (hpos : 0 < s.outbuf.length) :
    zw__flush_compressed_bytes s =
      { s with cf_compressed_size := s.cf_compressed_size + s.outbuf.length,
               stream := { s.stream with state := s.stream.state ++ s.outbuf },
               offset := s.offset + s.outbuf.length, outbuf := [] } := by
  unfold zw__flush_compressed_bytes
  rw [if_pos hpos]
  dsimp only
  rw [zw__write_to_stream_acc
    { s with cf_compressed_size := s.cf_compressed_size + s.outbuf.length }
    ⟨hacc.1, hacc.2⟩]

/-- `zw__flush_input` with an empty input cursor is a no-op. -/
theorem zw__flush_input_zero {σ : Type} (s : zw__zip_details σ) (h : s.in_cursor = 0) :
    zw__flush_input s = s := by
  unfold zw__flush_input
  rw [if_pos h]

/-- The end-of-block symbol 256 is the 7-bit code 0. -/
theorem zw__huff256 {σ : Type} (s : zw__zip_details σ) :
    zw__zlib_huff s 256 = zw__zlib_add s 0 7 := by
  unfold zw__zlib_huff zw__zlib_huffa
  rw [if_neg (by norm_num), if_neg (by norm_num), if_pos (by norm_num)]
  congr 1

theorem zw__data_descriptor_length (crc csize usize : Nat) :
    (zw__zip_data_descriptor_bytes crc csize usize).length = 12 := by
  simp [zw__zip_data_descriptor_bytes, zw__le32]

/-- Closing a member to which no bytes were written (input cursor 0,
bit accumulator holding just the 3 prelude bits `011`, empty output
buffer, zero running CRC and sizes): the emitted compressed body is
exactly the two bytes `0x03 0x00` — the 7-bit end-of-block symbol 256
over the prelude, zero-padded to a byte boundary — followed by the
12-byte data descriptor with CRC 0; the central directory records CRC
0, uncompressed size 0, and compressed size 2 in the ZIP64 extra. -/
theorem zw__end_empty_member (Lw : List Nat) (win : Nat → Nat) (htb : Nat → List Nat)
    (off so t d q nf : Nat) (nm : List Nat) (nl : Nat) (cd : List Nat) (hnl : nl ≠ 0) :
    zw__zip_end_file
      { bitbuf := 3, bitcount := 3, quality := q, outbuf := [], window := win,
        in_cursor := 0, hash_table := htb,
        stream := { state := Lw, write := zw__acc_write, has_close := true, error := 0 },
        offset := off, cf_start_offset := so, cf_compressed_size := 0,
        cf_uncompressed_size := 0, cf_crc := 0, cf_name_length := nl, cf_name := nm,
        time := t, date := d, central_dir := cd, num_files := nf }
      = ({ bitbuf := 0, bitcount := 0, quality := q, outbuf := [], window := win,
           in_cursor := 0, hash_table := htb,
           stream := {
             state := Lw ++ [3, 0]
                  ++ zw__zip_data_descriptor_bytes 0 4294967295 4294967295,
             write := zw__acc_write, has_close := true, error := 0 },
           offset := off + 2 + 12, cf_start_offset := so, cf_compressed_size := 2,
           cf_uncompressed_size := 0, cf_crc := 0, cf_name_length := 0, cf_name := nm,
           time := t, date := d,
           central_dir := cd ++ zw__zip_central_dir_file_header_bytes t d 0 nl
             ++ nm.take nl ++ zw__zip_info64_bytes 0 2 so,
           num_files := nf }, true) := by
  unfold zw__zip_end_file
  rw [if_neg hnl]
  dsimp only
  rw [zw__flush_input_zero _ rfl]
  rw [zw__huff256]
  rw [zw__zlib_add_cross _ 0 7 (by dsimp only; decide) (by dsimp only; decide)
    (by dsimp only; decide)]
  dsimp only
  have e1 : ((3 : Nat) ||| 0 <<< 3) % 4294967296 % 256 = 3 := by decide
  have e2 : ((3 : Nat) ||| 0 <<< 3) % 4294967296 / 256 = 0 := by decide
  rw [e1, e2]
  rw [zw__pad_bits_cross _ (by dsimp only; decide) (by dsimp only; decide)
    (by dsimp only; decide)]
  dsimp only
  have e3 : (0 : Nat) % 4294967296 % 256 = 0 := by decide
  have e4 : (0 : Nat) % 4294967296 / 256 = 0 := by decide
  rw [e3, e4]
  rw [zw__flush_compressed_acc_eq _ ⟨rfl, rfl⟩ (by dsimp only; decide)]
  dsimp only
  rw [zw__write_to_stream_acc _ ⟨rfl, rfl⟩]
  dsimp only
  rw [if_neg (show ¬((!true) = true) by simp)]
  unfold zw__append_to_central_dir
  dsimp only
  rw [if_neg (show ¬((!true) = true) by simp)]
  rw [if_neg (show ¬((!true) = true) by simp)]
  rw [if_neg (show ¬((!true) = true) by simp)]
  rw [zw__data_descriptor_length]
  norm_num [List.append_assoc]

/-- C4: for every completed member (any session state with an active
member and the observing sink), the bytes `zw__zip_end_file` hands to
the sink right after the flushed compressed body are exactly the
12-byte data descriptor — the member CRC followed by the two 32-bit
size fields, both holding the ZIP64 sentinel `0xFFFFFFFF`, with no
signature prefix. -/
theorem zw__data_descriptor_spec (s : zw__zip_details (List Nat))
    (hacc : zw__acc_ok s) (hn : s.cf_name_length ≠ 0) :
    (zw__zip_end_file s).2 = true
    ∧ (zw__zip_end_file s).1.stream.state
        = (zw__flush_compressed_bytes (zw__pad_bits
            (zw__zlib_huff (zw__flush_input s) 256))).stream.state
          ++ zw__zip_data_descriptor_bytes
              (zw__flush_compressed_bytes (zw__pad_bits
                (zw__zlib_huff (zw__flush_input s) 256))).cf_crc
              4294967295 4294967295
    ∧ (∀ crc csize usize : Nat, zw__zip_data_descriptor_bytes crc csize usize
        = zw__le32 crc ++ zw__le32 csize ++ zw__le32 usize)
    ∧ (∀ crc : Nat, (zw__zip_data_descriptor_bytes crc 4294967295 4294967295).length = 12) := by
  have hmid : zw__acc_ok (zw__flush_compressed_bytes (zw__pad_bits
      (zw__zlib_huff (zw__flush_input s) 256))) :=
    zw__flush_compressed_acc _ (zw__pad_bits_acc _ (zw__zlib_huff_acc _
      (zw__flush_input_acc s hacc) 256))
  unfold zw__zip_end_file
  rw [if_neg hn]
  dsimp only
  rw [zw__write_to_stream_acc _ hmid]
  dsimp only
  unfold zw__append_to_central_dir
  dsimp only
  refine ⟨rfl, rfl, fun _ _ _ => rfl, ?_⟩
  intro crc
  simp [zw__zip_data_descriptor_bytes, zw__le32]

/-- Witness for C4 on a concrete post-begin-like state: the fresh
session with the observing sink and an active 1-byte member name. -/
theorem zw__data_descriptor_spec_witness :
    (zw__zip_end_file { zw_create_ex zw__acc_stream 2024 6 15 13 45 32 with
        cf_name_length := 1 }).2 = true
    ∧ (zw__zip_end_file { zw_create_ex zw__acc_stream 2024 6 15 13 45 32 with
        cf_name_length := 1 }).1.stream.state
        = (zw__flush_compressed_bytes (zw__pad_bits
            (zw__zlib_huff (zw__flush_input { zw_create_ex zw__acc_stream 2024 6 15 13 45 32 with
              cf_name_length := 1 }) 256))).stream.state
          ++ zw__zip_data_descriptor_bytes
              (zw__flush_compressed_bytes (zw__pad_bits
                (zw__zlib_huff (zw__flush_input
                  { zw_create_ex zw__acc_stream 2024 6 15 13 45 32 with
                    cf_name_length := 1 }) 256))).cf_crc
              4294967295 4294967295
    ∧ (∀ crc csize usize : Nat, zw__zip_data_descriptor_bytes crc csize usize
        = zw__le32 crc ++ zw__le32 csize ++ zw__le32 usize)
    ∧ (∀ crc : Nat, (zw__zip_data_descriptor_bytes crc 4294967295 4294967295).length = 12) :=
  zw__data_descriptor_spec
    { zw_create_ex zw__acc_stream 2024 6 15 13 45 32 with cf_name_length := 1 }
    ⟨rfl, rfl⟩ (by simp)

/-- C2: `zw_finish` on an empty archive with a sink that accepts 80
bytes and then fails (the failure lands inside the final 22-byte EOCD
record) returns failure but — exercising the early `return zw_false;` of
the source — never invokes the sink's `close` and never frees the
session; with an ample budget the cleanup runs (close invoked exactly
once, session freed, success). -/
theorem zw_finish_eocd_failure_skips_close :
    (zw_finish (some (zw_create_ex (zw__budget_stream 80) 2024 6 15 13 45 32))).result = false
    ∧ (zw_finish (some (zw_create_ex (zw__budget_stream 80) 2024 6 15 13 45 32))).closed = 0
    ∧ (zw_finish (some (zw_create_ex (zw__budget_stream 80) 2024 6 15 13 45 32))).freed = false
    ∧ (zw_finish (some (zw_create_ex (zw__budget_stream 200) 2024 6 15 13 45 32))).result = true
    ∧ (zw_finish (some (zw_create_ex (zw__budget_stream 200) 2024 6 15 13 45 32))).closed = 1
    ∧ (zw_finish (some (zw_create_ex (zw__budget_stream 200) 2024 6 15 13 45 32))).freed = true := by
  decide

/-- C3: `zw_begin_file` on a fresh session immediately followed by the
member end (no data written): the begin succeeds, the end succeeds, the
bytes emitted after the local header and name are exactly the two-byte
DEFLATE body `0x03 0x00` — BFINAL=1/BTYPE=01 plus the 7-bit end-of-block
symbol 256, zero-padded to a byte boundary — followed by the data
descriptor carrying CRC 0; and the central directory records CRC 0,
uncompressed size 0 and compressed size 2 in the ZIP64 extra field. -/
theorem zw__empty_member_spec (yy mo dd hh mi ss : Nat) (name : List Nat)
    (h1 : name ≠ []) (h2 : name.length ≤ 65534) :
    (zw__begin_file_impl (zw_create_ex zw__acc_stream yy mo dd hh mi ss) name).2 = true
    ∧ (zw__zip_end_file
        (zw__begin_file_impl (zw_create_ex zw__acc_stream yy mo dd hh mi ss) name).1).2 = true
    ∧ (zw__zip_end_file
        (zw__begin_file_impl (zw_create_ex zw__acc_stream yy mo dd hh mi ss) name).1).1.stream.state
        = (zw__begin_file_impl
            (zw_create_ex zw__acc_stream yy mo dd hh mi ss) name).1.stream.state
          ++ [3, 0]
          ++ zw__zip_data_descriptor_bytes 0 4294967295 4294967295
    ∧ (zw__zip_end_file
        (zw__begin_file_impl (zw_create_ex zw__acc_stream yy mo dd hh mi ss) name).1).1.central_dir
        = zw__zip_central_dir_file_header_bytes (zw__zip_encode_time hh mi ss)
            (zw__zip_encode_date yy mo dd) 0 name.length
          ++ name ++ zw__zip_info64_bytes 0 2 0 := by
  have hnl : name.length ≠ 0 := fun h => h1 (List.eq_nil_of_length_eq_zero h)
  rw [zw__begin_fresh yy mo dd hh mi ss name h1 h2]
  dsimp only
  rw [zw__end_empty_member
    (zw__zip_local_file_header_bytes (zw__zip_encode_time hh mi ss)
      (zw__zip_encode_date yy mo dd) name.length ++ name)
    (fun _ => 0) (fun _ => []) (30 + name.length) 0
    (zw__zip_encode_time hh mi ss) (zw__zip_encode_date yy mo dd) 8 1
    name name.length [] hnl]
  dsimp only
  refine ⟨rfl, rfl, rfl, ?_⟩
  rw [List.take_length, List.nil_append]

/-- Witness for C3: a fresh 2024-06-15 13:45:32 session and the
one-byte member name `"a"`. -/
theorem zw__empty_member_spec_witness :
    (([97] : List Nat) ≠ [] ∧ ([97] : List Nat).length ≤ 65534)
    ∧ ((zw__begin_file_impl (zw_create_ex zw__acc_stream 2024 6 15 13 45 32) [97]).2 = true
    ∧ (zw__zip_end_file
        (zw__begin_file_impl (zw_create_ex zw__acc_stream 2024 6 15 13 45 32) [97]).1).2 = true
    ∧ (zw__zip_end_file
        (zw__begin_file_impl (zw_create_ex zw__acc_stream 2024 6 15 13 45 32) [97]).1).1.stream.state
        = (zw__begin_file_impl
            (zw_create_ex zw__acc_stream 2024 6 15 13 45 32) [97]).1.stream.state
          ++ [3, 0]
          ++ zw__zip_data_descriptor_bytes 0 4294967295 4294967295
    ∧ (zw__zip_end_file
        (zw__begin_file_impl (zw_create_ex zw__acc_stream 2024 6 15 13 45 32) [97]).1).1.central_dir
        = zw__zip_central_dir_file_header_bytes (zw__zip_encode_time 13 45 32)
            (zw__zip_encode_date 2024 6 15) 0 ([97] : List Nat).length
          ++ [97] ++ zw__zip_info64_bytes 0 2 0) :=
  ⟨⟨by decide, by decide⟩,
    zw__empty_member_spec 2024 6 15 13 45 32 [97] (by decide) (by decide)⟩

end ZipWrite
